import Mathlib

/-!
# polyiex handlers: the micro-batching writer and the feed decoders

A shallow embedding of `contrib/polyiex/handlers/handlers.go`.

* Go slices are modelled as slice headers (`Slice`) over a heap of backing
  arrays (`Heap`), so that `append`, `s[:0]` and the sharing of a backing
  array between two headers behave as in Go.
* The consumer loop `writer.write` is modelled as a run over a schedule of
  steps: a packet received from the channel, or a timer expiry.  Go leaves
  the iteration order of `range` over a map unspecified, so a timer step
  carries the order in which the keys are visited.
* A failed single-value type assertion panics; a step that panics yields
  `none`.
* The decoders `TradeEach` and `BookEach` work on the package state `World`;
  calls are taken one after the other, as the mutex and the `sync.Once` make
  them.
* The timing of the select is modelled by `selectLoop`, over the times at
  which packets become receivable.
-/

namespace Handlers

/-! ## Data model -/

/-- The key `io.TimeBucketKey`; two keys built by `io.NewTimeBucketKey` from
item keys are equal exactly when the item keys are equal, so the item key
string stands for the key. -/
abbrev TimeBucketKey := String

/-- A Go `float32`, kept as its IEEE-754 bit pattern: the writer only copies
such values. -/
structure Float32 where
  bits : Nat
deriving DecidableEq, Repr

instance : Inhabited Float32 := ⟨⟨0⟩⟩

/-- The struct `trade` (handlers.go, lines 118-123). -/
structure trade where
  epoch : Int
  nanos : Int
  px : Float32
  sz : Int
deriving DecidableEq, Repr

/-- The struct `quote` (handlers.go, lines 125-132). -/
structure quote where
  epoch : Int
  nanos : Int
  bidPx : Float32
  askPx : Float32
  bidSz : Int
  askSz : Int
deriving DecidableEq, Repr

/-- The dynamic value in `writePacket.data`: the package only ever sends a
`*quote` or a `*trade`. -/
inductive Data where
  | ofQuote (q : quote)
  | ofTrade (t : trade)
deriving DecidableEq, Repr

/-- The struct `writePacket` (handlers.go, lines 143-146). -/
structure writePacket where
  tbk : TimeBucketKey
  data : Data
deriving DecidableEq, Repr

/-- The dynamic value stored in `dataBuckets`: a `[]*quote` or a `[]*trade`.
The backing array of a bucket is referenced by its map entry only, so the
bucket is the list of its elements. -/
inductive Bucket where
  | quotes (b : List quote)
  | trades (b : List trade)
deriving DecidableEq, Repr

/-- The events held by a bucket, as packet payloads. -/
def Bucket.events : Bucket → List Data
  | .quotes b => b.map Data.ofQuote
  | .trades b => b.map Data.ofTrade

/-- Whether a payload is a quote (`true`) or a trade (`false`). -/
def Data.isQuote : Data → Bool
  | .ofQuote _ => true
  | .ofTrade _ => false

/-- Whether a bucket is a `[]*quote` (`true`) or a `[]*trade` (`false`). -/
def Bucket.isQuote : Bucket → Bool
  | .quotes _ => true
  | .trades _ => false

/-! ## Go maps as association lists -/

/-- Map lookup `m[k]` with the comma-ok result. -/
def mapGet {V : Type} : List (String × V) → String → Option V
  | [], _ => none
  | (k', v) :: m, k => if k' = k then some v else mapGet m k

/-- Map assignment `m[k] = v`. -/
def mapSet {V : Type} : List (String × V) → String → V → List (String × V)
  | [], k, v => [(k, v)]
  | (k', v') :: m, k, v => if k' = k then (k, v) :: m else (k', v') :: mapSet m k v

/-! ## Go slices over a heap of backing arrays -/

/-- A slice header: backing array, length, capacity.  Array `0` is the nil
pointer. -/
structure Slice where
  arr : Nat
  len : Nat
  cap : Nat
deriving DecidableEq, Repr

/-- The nil slice, the zero value of a slice variable. -/
def Slice.nil : Slice := ⟨0, 0, 0⟩

/-- The reslicing `s[:0]`: same backing array and capacity, length zero. -/
def Slice.trim (s : Slice) : Slice := { s with len := 0 }

/-- A heap of backing arrays with elements of type `α`; `next` is the first
address not yet allocated. -/
structure Heap (α : Type) where
  cells : Nat → Nat → α
  next : Nat

/-- The empty heap; address `0` is reserved for nil. -/
def Heap.empty {α : Type} [Inhabited α] : Heap α := ⟨fun _ _ => default, 1⟩

/-- The elements a slice header denotes in a heap. -/
def Heap.read {α : Type} (h : Heap α) (s : Slice) : List α :=
  (List.range s.len).map (h.cells s.arr)

/-- Go's `append(s, v)`: in place when the capacity allows, otherwise into
a freshly allocated array holding a copy of the elements.  `extra` is the
slack the runtime adds to the requested capacity, as a function of the old
capacity. -/
def goAppend {α : Type} [Inhabited α] (extra : Nat → Nat) (h : Heap α) (s : Slice) (v : α) :
    Heap α × Slice :=
  if s.len < s.cap then
    ({ h with cells := fun a i => if a = s.arr ∧ i = s.len then v else h.cells a i },
     { s with len := s.len + 1 })
  else
    ({ cells := fun a i =>
         if a = h.next then
           (if i < s.len then h.cells s.arr i else if i = s.len then v else default)
         else h.cells a i,
       next := h.next + 1 },
     { arr := h.next, len := s.len + 1, cap := s.len + 1 + extra s.cap })

/-- A slice header points into the allocated part of the heap and its length
is within its capacity. -/
def Slice.WF {α : Type} (h : Heap α) (s : Slice) : Prop := s.arr < h.next ∧ s.len ≤ s.cap

instance {α : Type} (h : Heap α) (s : Slice) : Decidable (s.WF h) := by
  unfold Slice.WF; infer_instance

/-- Two slice headers that cannot write into each other: different backing
arrays, or one of them without capacity. -/
def Slice.Apart (s t : Slice) : Prop := s.arr ≠ t.arr ∨ s.cap = 0 ∨ t.cap = 0

instance (s t : Slice) : Decidable (s.Apart t) := by
  unfold Slice.Apart; infer_instance

/-! ## The column map -/

/-- A column array handed to `AddColumn`: a slice header, by element type. -/
inductive Column where
  | int64s (s : Slice)
  | int32s (s : Slice)
  | float32s (s : Slice)
deriving DecidableEq, Repr

instance : Inhabited Column := ⟨.int64s Slice.nil⟩

/-- Modelled from the spec: `io.ColumnSeriesMap` is not among the sources; it
is "a mapping from TimeBucketKey to a set of named ... column arrays".  It is
kept as the list of (key, column name, column array) in the order added. -/
abbrev ColumnSeriesMap := List (TimeBucketKey × String × Column)

/-- Modelled from the spec: `csm.AddColumn(tbk, name, col)` records the
column array under the key and name.  The argument is a Go slice, so what is
recorded is the slice header. -/
def AddColumn (csm : ColumnSeriesMap) (tbk : TimeBucketKey) (name : String) (col : Column) :
    ColumnSeriesMap :=
  csm ++ [(tbk, name, col)]

/-! ## The writer -/

/-- The state of the consumer loop `writer.write`: the field `dataBuckets`
of the writer, the local variables of `write` (lines 157-168) and the three
heaps their backing arrays live in. -/
structure writer where
  dataBuckets : List (TimeBucketKey × Bucket)
  csm : ColumnSeriesMap
  mem64 : Heap Int
  mem32 : Heap Int
  memF : Heap Float32
  epoch : Slice
  nanos : Slice
  bidPx : Slice
  askPx : Slice
  px : Slice
  bidSz : Slice
  askSz : Slice
  sz : Slice

/-- The writer `w` of lines 134-141 when `write` starts: no bucket, and every
local of `write` at its zero value. -/
def writer.init : writer :=
  { dataBuckets := [], csm := [],
    mem64 := Heap.empty, mem32 := Heap.empty, memF := Heap.empty,
    epoch := Slice.nil, nanos := Slice.nil, bidPx := Slice.nil, askPx := Slice.nil,
    px := Slice.nil, bidSz := Slice.nil, askSz := Slice.nil, sz := Slice.nil }

/-- The packet branch of the select (lines 172-192).  A type assertion on a
bucket of the other kind panics. -/
def writer.recv (w : writer) (packet : writePacket) : Option writer :=
  match mapGet w.dataBuckets packet.tbk with
  | some bucket =>
    match packet.data, bucket with
    | .ofQuote q, .quotes b =>
      some { w with dataBuckets := mapSet w.dataBuckets packet.tbk (.quotes (b ++ [q])) }
    | .ofTrade t, .trades b =>
      some { w with dataBuckets := mapSet w.dataBuckets packet.tbk (.trades (b ++ [t])) }
    | _, _ => none
  | none =>
    match packet.data with
    | .ofQuote q => some { w with dataBuckets := mapSet w.dataBuckets packet.tbk (.quotes [q]) }
    | .ofTrade t => some { w with dataBuckets := mapSet w.dataBuckets packet.tbk (.trades [t]) }

/-- The statement `epoch = append(epoch, v)`. -/
def writer.pushEpoch (extra : Nat → Nat → Nat) (w : writer) (v : Int) : writer :=
  { w with mem64 := (goAppend (extra 8) w.mem64 w.epoch v).1,
           epoch := (goAppend (extra 8) w.mem64 w.epoch v).2 }

/-- The statement `nanos = append(nanos, v)`. -/
def writer.pushNanos (extra : Nat → Nat → Nat) (w : writer) (v : Int) : writer :=
  { w with mem32 := (goAppend (extra 4) w.mem32 w.nanos v).1,
           nanos := (goAppend (extra 4) w.mem32 w.nanos v).2 }

/-- The statement `bidPx = append(bidPx, v)`. -/
def writer.pushBidPx (extra : Nat → Nat → Nat) (w : writer) (v : Float32) : writer :=
  { w with memF := (goAppend (extra 4) w.memF w.bidPx v).1,
           bidPx := (goAppend (extra 4) w.memF w.bidPx v).2 }

/-- The statement `askPx = append(askPx, v)`. -/
def writer.pushAskPx (extra : Nat → Nat → Nat) (w : writer) (v : Float32) : writer :=
  { w with memF := (goAppend (extra 4) w.memF w.askPx v).1,
           askPx := (goAppend (extra 4) w.memF w.askPx v).2 }

/-- The statement `px = append(px, v)`. -/
def writer.pushPx (extra : Nat → Nat → Nat) (w : writer) (v : Float32) : writer :=
  { w with memF := (goAppend (extra 4) w.memF w.px v).1,
           px := (goAppend (extra 4) w.memF w.px v).2 }

/-- The statement `bidSz = append(bidSz, v)`. -/
def writer.pushBidSz (extra : Nat → Nat → Nat) (w : writer) (v : Int) : writer :=
  { w with mem32 := (goAppend (extra 4) w.mem32 w.bidSz v).1,
           bidSz := (goAppend (extra 4) w.mem32 w.bidSz v).2 }

/-- The statement `askSz = append(askSz, v)`. -/
def writer.pushAskSz (extra : Nat → Nat → Nat) (w : writer) (v : Int) : writer :=
  { w with mem32 := (goAppend (extra 4) w.mem32 w.askSz v).1,
           askSz := (goAppend (extra 4) w.mem32 w.askSz v).2 }

/-- The statement `sz = append(sz, v)`. -/
def writer.pushSz (extra : Nat → Nat → Nat) (w : writer) (v : Int) : writer :=
  { w with mem32 := (goAppend (extra 4) w.mem32 w.sz v).1,
           sz := (goAppend (extra 4) w.mem32 w.sz v).2 }

/-- The body of `for _, q := range b` (lines 204-209). -/
def writer.appendQuote (extra : Nat → Nat → Nat) (w : writer) (q : quote) : writer :=
  (((((w.pushEpoch extra q.epoch).pushNanos extra q.nanos).pushBidPx extra q.bidPx).pushAskPx
    extra q.askPx).pushBidSz extra q.bidSz).pushAskSz extra q.askSz

/-- The body of `for _, t := range b` (lines 233-236). -/
def writer.appendTrade (extra : Nat → Nat → Nat) (w : writer) (t : trade) : writer :=
  (((w.pushEpoch extra t.epoch).pushNanos extra t.nanos).pushPx extra t.px).pushSz extra t.sz

/-- The guarded block of the quote case (lines 212-228), run after the rows
of `b` are appended: the six columns are added, the scratch slices trimmed
(with `askPx = bidPx[:0]`, line 225) and the bucket truncated. -/
def writer.emitQuote (w : writer) (tbk : TimeBucketKey) (b : List quote) : writer :=
  if 0 < w.epoch.len then
    { w with
      csm := AddColumn (AddColumn (AddColumn (AddColumn (AddColumn (AddColumn w.csm
        tbk "Epoch" (.int64s w.epoch))
        tbk "Nanoseconds" (.int32s w.nanos))
        tbk "BidPrice" (.float32s w.bidPx))
        tbk "AskPrice" (.float32s w.askPx))
        tbk "BidSize" (.int32s w.bidSz))
        tbk "AskSize" (.int32s w.askSz)
      epoch := w.epoch.trim
      nanos := w.nanos.trim
      bidPx := w.bidPx.trim
      bidSz := w.bidSz.trim
      askPx := w.bidPx.trim.trim
      askSz := w.askSz.trim
      dataBuckets := mapSet w.dataBuckets tbk (.quotes (b.take 0)) }
  else w

/-- The guarded block of the trade case (lines 239-251). -/
def writer.emitTrade (w : writer) (tbk : TimeBucketKey) (b : List trade) : writer :=
  if 0 < w.epoch.len then
    { w with
      csm := AddColumn (AddColumn (AddColumn (AddColumn w.csm
        tbk "Epoch" (.int64s w.epoch))
        tbk "Nanoseconds" (.int32s w.nanos))
        tbk "Price" (.float32s w.px))
        tbk "Size" (.int32s w.sz)
      epoch := w.epoch.trim
      nanos := w.nanos.trim
      px := w.px.trim
      sz := w.sz.trim
      dataBuckets := mapSet w.dataBuckets tbk (.trades (b.take 0)) }
  else w

/-- One iteration of `for tbk, bucket := range w.dataBuckets` (lines 198-253):
the type switch on the bucket found under `tbk`. -/
def writer.visit (extra : Nat → Nat → Nat) (w : writer) (tbk : TimeBucketKey) : writer :=
  match mapGet w.dataBuckets tbk with
  | some (.quotes b) => (b.foldl (writer.appendQuote extra) w).emitQuote tbk b
  | some (.trades b) => (b.foldl (writer.appendTrade extra) w).emitTrade tbk b
  | none => w

/-- The timer branch of the select (lines 194-255): a fresh column map, then
the loop over the buckets, visited in `order`. -/
def writer.tick (extra : Nat → Nat → Nat) (w : writer) (order : List TimeBucketKey) : writer :=
  order.foldl (writer.visit extra) { w with csm := [] }

/-- One wake-up of the select in `write`. -/
inductive Step where
  | packet (m : writePacket)
  | timer (order : List TimeBucketKey)
deriving DecidableEq, Repr

/-- One iteration of the `for` loop of `write`. -/
def writer.step (extra : Nat → Nat → Nat) (w : writer) : Step → Option writer
  | .packet m => w.recv m
  | .timer order => some (w.tick extra order)

/-- The loop of `write` (lines 170-261) along a schedule of wake-ups; `none`
when an iteration panics. -/
def writer.write (extra : Nat → Nat → Nat) : writer → List Step → Option writer
  | w, [] => some w
  | w, s :: rest =>
    match w.step extra s with
    | some w' => writer.write extra w' rest
    | none => none

/-! ## Reading the column map -/

/-- The content of a column array. -/
inductive ColumnData where
  | int64s (l : List Int)
  | int32s (l : List Int)
  | float32s (l : List Float32)
deriving DecidableEq, Repr

/-- The elements a recorded column denotes in the current heaps. -/
def writer.column (w : writer) : Column → ColumnData
  | .int64s s => .int64s (w.mem64.read s)
  | .int32s s => .int32s (w.mem32.read s)
  | .float32s s => .float32s (w.memF.read s)

/-- The columns the column map holds for a key, by name, in the order
added. -/
def writer.columnsOf (w : writer) (tbk : TimeBucketKey) : List (String × ColumnData) :=
  (w.csm.filter (fun e => e.1 = tbk)).map (fun e => (e.2.1, w.column e.2.2))

/-- The row-to-column transposition of a quote buffer. -/
def quoteColumns (b : List quote) : List (String × ColumnData) :=
  [("Epoch", .int64s (b.map quote.epoch)),
   ("Nanoseconds", .int32s (b.map quote.nanos)),
   ("BidPrice", .float32s (b.map quote.bidPx)),
   ("AskPrice", .float32s (b.map quote.askPx)),
   ("BidSize", .int32s (b.map quote.bidSz)),
   ("AskSize", .int32s (b.map quote.askSz))]

/-- The row-to-column transposition of a trade buffer. -/
def tradeColumns (b : List trade) : List (String × ColumnData) :=
  [("Epoch", .int64s (b.map trade.epoch)),
   ("Nanoseconds", .int32s (b.map trade.nanos)),
   ("Price", .float32s (b.map trade.px)),
   ("Size", .int32s (b.map trade.sz))]

/-- The number of elements of a column. -/
def ColumnData.length : ColumnData → Nat
  | .int64s l => l.length
  | .int32s l => l.length
  | .float32s l => l.length

/-! ## Observations on a run of the writer -/

/-- The payloads of the packets a schedule delivers for a key, in receipt
order. -/
def received (steps : List Step) (K : TimeBucketKey) : List Data :=
  steps.filterMap fun s =>
    match s with
    | .packet m => if m.tbk = K then some m.data else none
    | .timer _ => none

/-- The packets a schedule delivers. -/
def packets (steps : List Step) : List writePacket :=
  steps.filterMap fun s =>
    match s with
    | .packet m => some m
    | .timer _ => none

/-- Every key of the schedule carries a single event kind. -/
def SingleKind (steps : List Step) : Prop :=
  ∀ m ∈ packets steps, ∀ m' ∈ packets steps, m.tbk = m'.tbk → m.data.isQuote = m'.data.isQuote

instance (steps : List Step) : Decidable (SingleKind steps) := by
  unfold SingleKind; infer_instance

/-- The events in the current buffer of a key (none when the key has no
bucket). -/
def writer.buffer (w : writer) (K : TimeBucketKey) : List Data :=
  ((mapGet w.dataBuckets K).map Bucket.events).getD []

/-- The bucket after `b[:0]`: empty, of the same kind. -/
def Bucket.emptied : Bucket → Bucket
  | .quotes _ => .quotes []
  | .trades _ => .trades []

/-- The scratch slices that a bucket of the given kind is transposed into
(`true` for quotes) all have length zero. -/
def writer.Ready (w : writer) (isQuote : Bool) : Prop :=
  w.epoch.len = 0 ∧ w.nanos.len = 0 ∧
    if isQuote then w.bidPx.len = 0 ∧ w.askPx.len = 0 ∧ w.bidSz.len = 0 ∧ w.askSz.len = 0
    else w.px.len = 0 ∧ w.sz.len = 0

instance (w : writer) (isQuote : Bool) : Decidable (w.Ready isQuote) := by
  unfold writer.Ready; infer_instance

/-- The slice header of a recorded column. -/
def Column.slice : Column → Slice
  | .int64s s => s
  | .int32s s => s
  | .float32s s => s

/-- The names and lengths of the columns the column map holds for a key. -/
def writer.columnLengths (w : writer) (tbk : TimeBucketKey) : List (String × Nat) :=
  (w.columnsOf tbk).map (fun c => (c.1, c.2.length))

/-- The column names of a flushed bucket, by kind (`true` for quotes), in the
order the columns are added. -/
def columnNames (isQuote : Bool) : List String :=
  if isQuote then ["Epoch", "Nanoseconds", "BidPrice", "AskPrice", "BidSize", "AskSize"]
  else ["Epoch", "Nanoseconds", "Price", "Size"]

/-- The part of the heap discipline the trade columns rest on: the two
`int32` scratch slices of a trade, `nanos` and `sz`, are well formed and do
not write into each other. -/
def writer.Sep (w : writer) : Prop :=
  w.nanos.WF w.mem32 ∧ w.sz.WF w.mem32 ∧ w.nanos.Apart w.sz

instance (w : writer) : Decidable w.Sep := by
  unfold writer.Sep; infer_instance

/-- All eight scratch slices have length zero. -/
def writer.ScratchEmpty (w : writer) : Prop :=
  w.epoch.len = 0 ∧ w.nanos.len = 0 ∧ w.bidPx.len = 0 ∧ w.askPx.len = 0 ∧ w.px.len = 0 ∧
    w.bidSz.len = 0 ∧ w.askSz.len = 0 ∧ w.sz.len = 0

instance (w : writer) : Decidable w.ScratchEmpty := by
  unfold writer.ScratchEmpty; infer_instance

/-! ## Sample inputs -/

/-- A trade of 10 at 150.25. -/
def sampleTrade1 : trade := ⟨1700000000, 500000, ⟨1125531648⟩, 10⟩

/-- A trade of 20 at 150.5. -/
def sampleTrade2 : trade := ⟨1700000001, 0, ⟨1125548032⟩, 20⟩

/-- A quote of 5 at 300.0 bid, 7 at 300.5 ask. -/
def sampleQuote1 : quote := ⟨1700000000, 0, ⟨1133903872⟩, ⟨1133920256⟩, 5, 7⟩

/-- A quote of 6 at 301.0 bid, 8 at 301.5 ask. -/
def sampleQuote2 : quote := ⟨1700000001, 0, ⟨1133936640⟩, ⟨1133953024⟩, 6, 8⟩

/-- A schedule: a trade and a quote arrive, the timer fires, a second trade
arrives. -/
def sampleSchedule : List Step :=
  [.packet ⟨"AAPL/1Min/TRADE", .ofTrade sampleTrade1⟩,
   .packet ⟨"MSFT/1Min/QUOTE", .ofQuote sampleQuote1⟩,
   .timer ["MSFT/1Min/QUOTE", "AAPL/1Min/TRADE"],
   .packet ⟨"AAPL/1Min/TRADE", .ofTrade sampleTrade2⟩]

/-- The state of the loop after the sample schedule, with a runtime that
allocates no slack. -/
def sampleState : writer :=
  (writer.write (fun _ _ => 0) writer.init sampleSchedule).getD writer.init

/-! ## The decoders -/

/-- A Go `float64` by its IEEE-754 fields: sign bit, biased exponent (11
bits), mantissa (52 bits). -/
structure Float64 where
  sign : Bool
  exponent : Nat
  mantissa : Nat
deriving DecidableEq, Repr

/-- The value `0.0`, which `jsonparser.GetFloat` returns with an error. -/
def Float64.zero : Float64 := ⟨false, 0, 0⟩

/-- Whether the value is a NaN. -/
def Float64.isNaN (x : Float64) : Bool := x.exponent == 2047 && x.mantissa != 0

/-- The comparison `x <= 0.0`: false on a NaN, true on a value with the
sign bit set and on zero. -/
def Float64.leZero (x : Float64) : Bool :=
  !x.isNaN && (x.sign || (x.exponent == 0 && x.mantissa == 0))

/-- The conversion to `int64`: wrap-around of two's complement. -/
def int64 (x : Int) : Int := (x + 2 ^ 63) % 2 ^ 64 - 2 ^ 63

/-- The conversion to `int32`: wrap-around of two's complement. -/
def int32 (x : Int) : Int := (x + 2 ^ 31) % 2 ^ 32 - 2 ^ 31

/-- A `time.Time` as `time.Unix` builds it: seconds since the epoch and the
nanosecond within the second. -/
structure Time where
  sec : Int
  nsec : Int
deriving DecidableEq, Repr

/-- Go's `time.Unix(sec, nsec)`: the nanoseconds are normalised into
`[0, 999999999]` with a truncating division and a correction for a negative
remainder. -/
def timeUnix (sec nsec : Int) : Time :=
  if nsec < 0 ∨ nsec ≥ 1000000000 then
    let n := Int.tdiv nsec 1000000000
    let sec1 := int64 (sec + n)
    let nsec1 := int64 (nsec - int64 (n * 1000000000))
    if nsec1 < 0 then ⟨int64 (sec1 - 1), int32 (int64 (nsec1 + 1000000000))⟩
    else ⟨sec1, int32 nsec1⟩
  else ⟨sec, int32 nsec⟩

/-- The method `Time.Unix()`. -/
def Time.Unix (t : Time) : Int := t.sec

/-- The method `Time.Nanosecond()`. -/
def Time.Nanosecond (t : Time) : Int := t.nsec

/-- The expression `time.Unix(0, 1000*1000*millisec+nanosec)` of lines 32 and
80, in `int64` arithmetic. -/
def timestampOf (millisec nanosec : Int) : Time :=
  timeUnix 0 (int64 (int64 (1000 * 1000 * millisec) + nanosec))

/-- The struct `orderbook.Entry`: one price level. -/
structure Entry where
  Price : Float32
  Size : Int
deriving DecidableEq, Repr

/-- Modelled from the spec: the package `orderbook` is not among the sources.
It "exposes `Bid(entry)`, `Ask(entry)`, `BBO() -> (bestBid, bestAsk)` per
symbol instance" and is treated as a black box; `BBO` also returns the book
it leaves behind, so that a call of it can be counted. -/
structure OrderBookOps (B : Type) where
  NewOrderBook : B
  Bid : B → Entry → B
  Ask : B → Entry → B
  BBO : B → (Entry × Entry) × B

/-- The package-level state the decoders work on: the registry `orderBooks`
(symbol to `*OrderBook`, an address), the order books by address, the
`sync.Once` of `Write` with the number of times `w.write` was started, and
the content of the channel `w.c`. -/
structure World (B : Type) where
  orderBooks : List (String × Nat)
  books : Nat → B
  nextBook : Nat
  onceDone : Bool
  started : Nat
  c : List writePacket

/-- The package state at start-up. -/
def World.init {B : Type} (ops : OrderBookOps B) : World B :=
  { orderBooks := [], books := fun _ => ops.NewOrderBook, nextBook := 0,
    onceDone := false, started := 0, c := [] }

/-- A method call on the order book at an address. -/
def World.onBook {B : Type} (g : World B) (book : Nat) (f : B → B) : World B :=
  { g with books := fun a => if a = book then f (g.books book) else g.books a }

/-- The function `Write` (lines 264-270): start `w.write` once, then send the
packet into the unbounded channel. -/
def Write {B : Type} (pkt : writePacket) (g : World B) : World B :=
  let g1 := if g.onceDone then g else { g with onceDone := true, started := g.started + 1 }
  { g1 with c := g1.c ++ [pkt] }

/-- The function `getOrderBook` (lines 107-116). -/
def getOrderBook {B : Type} (ops : OrderBookOps B) (symbol : String) (g : World B) :
    Nat × World B :=
  match mapGet g.orderBooks symbol with
  | some book => (book, g)
  | none =>
    (g.nextBook,
     { g with books := fun a => if a = g.nextBook then ops.NewOrderBook else g.books a,
              nextBook := g.nextBook + 1,
              orderBooks := mapSet g.orderBooks symbol g.nextBook })

/-- A raw feed message, by what `jsonparser` reads from it: `none` where the
getter returns an error (the getter then returns the zero value).  The
lists `b` and `a` are the elements `ArrayEach` visits under those keys, each
with the results of `GetFloat(value, "[0]")` and `GetInt(value, "[1]")`. -/
structure RawMessage where
  S : Option String
  p : Option Float64
  s : Option Int
  t : Option Int
  T : Option Int
  b : List (Option Float64 × Option Int)
  a : List (Option Float64 × Option Int)

/-- The entry built in the callbacks of `BookEach` (lines 62-64, 67-69). -/
def entryOf (cvt : Float64 → Float32) (value : Option Float64 × Option Int) : Entry :=
  { Price := cvt (value.1.getD Float64.zero), Size := int32 (value.2.getD 0) }

/-- The function `TradeEach` (lines 15-43); `cvt` is the conversion
`float32(price)`.  Logging is left out. -/
def TradeEach {B : Type} (cvt : Float64 → Float32) (raw : RawMessage) (g : World B) : World B :=
  match raw.S with
  | none => g
  | some symbol =>
    let price := raw.p.getD Float64.zero
    let size := raw.s.getD 0
    let millisec := raw.t.getD 0
    let nanosec := raw.T.getD 0
    if price.leZero || decide (size ≤ 0) then g
    else
      let timestamp := timestampOf millisec nanosec
      Write
        { tbk := symbol ++ "/1Min/TRADE",
          data := .ofTrade
            { epoch := timestamp.Unix,
              nanos := int32 timestamp.Nanosecond,
              px := cvt price,
              sz := int32 size } } g

/-- The function `BookEach` (lines 51-93).  Printing is left out. -/
def BookEach {B : Type} (ops : OrderBookOps B) (cvt : Float64 → Float32) (raw : RawMessage)
    (g : World B) : World B :=
  match raw.S with
  | none => g
  | some symbol =>
    let millisec := raw.t.getD 0
    let nanosec := raw.T.getD 0
    let book := (getOrderBook ops symbol g).1
    let g1 := (getOrderBook ops symbol g).2
    let g2 := raw.b.foldl (fun g value => g.onBook book (fun bk => ops.Bid bk (entryOf cvt value))) g1
    let g3 := raw.a.foldl (fun g value => g.onBook book (fun bk => ops.Ask bk (entryOf cvt value))) g2
    let bbo := (ops.BBO (g3.books book)).1
    let g4 := g3.onBook book (fun bk => (ops.BBO bk).2)
    let timestamp := timestampOf millisec nanosec
    Write
      { tbk := symbol ++ "/1Min/QUOTE",
        data := .ofQuote
          { epoch := timestamp.Unix,
            nanos := int32 timestamp.Nanosecond,
            bidPx := bbo.1.Price,
            askPx := bbo.2.Price,
            bidSz := bbo.1.Size,
            askSz := bbo.2.Size } } g4

/-- The book a depth update leaves before the BBO is read, in the words of
the spec: the entries of `b` applied with `Bid` in list order, then the
entries of `a` applied with `Ask` in list order. -/
def applyDepth {B : Type} (ops : OrderBookOps B) (cvt : Float64 → Float32) (raw : RawMessage)
    (bk : B) : B :=
  (raw.a.map (entryOf cvt)).foldl ops.Ask ((raw.b.map (entryOf cvt)).foldl ops.Bid bk)

/-- The quote of a BBO snapshot at a timestamp. -/
def quoteOf (ts : Time) (bbo : Entry × Entry) : quote :=
  { epoch := ts.Unix, nanos := int32 ts.Nanosecond, bidPx := bbo.1.Price, askPx := bbo.2.Price,
    bidSz := bbo.1.Size, askSz := bbo.2.Size }

/-! ## Sample inputs for the decoders -/

/-- A one-level order book: the last bid and the last ask are the best. -/
def sampleOps : OrderBookOps (Entry × Entry) :=
  { NewOrderBook := (⟨⟨0⟩, 0⟩, ⟨⟨0⟩, 0⟩),
    Bid := fun bk e => (e, bk.2),
    Ask := fun bk e => (bk.1, e),
    BBO := fun bk => (bk, bk) }

/-- The conversion `float32(x)` on the doubles that a `float32` holds
exactly. -/
def sampleCvt (x : Float64) : Float32 :=
  ⟨(if x.sign then 2 ^ 31 else 0) + (x.exponent - 896) * 2 ^ 23 + x.mantissa / 2 ^ 29⟩

/-- The trade message `{"S":"AAPL","p":150.25,"s":10,"t":1700000000000,
"T":500000}`. -/
def sampleTradeMessage : RawMessage :=
  { S := some "AAPL", p := some ⟨false, 1030, 782852278976512⟩, s := some 10,
    t := some 1700000000000, T := some 500000, b := [], a := [] }

/-- The trade message `{"S":"AAPL","p":150.25,"s":4294967296,
"t":1700000000000,"T":500000}`: a size of `2^32`. -/
def wideSizeMessage : RawMessage :=
  { S := some "AAPL", p := some ⟨false, 1030, 782852278976512⟩, s := some 4294967296,
    t := some 1700000000000, T := some 500000, b := [], a := [] }

/-- The depth update `{"S":"MSFT","t":1700000000000,"T":500000,
"b":[[300.0,5]],"a":[[300.5,7]]}`. -/
def sampleBookMessage : RawMessage :=
  { S := some "MSFT", p := none, s := none, t := some 1700000000000, T := some 500000,
    b := [(some ⟨false, 1031, 774056185954304⟩, some 5)],
    a := [(some ⟨false, 1031, 782852278976512⟩, some 7)] }

/-- A message without a symbol field: `{"p":150.25,"s":10,"t":1700000000000,
"T":500000,"b":[[300.0,5]],"a":[[300.5,7]]}`. -/
def sampleBadMessage : RawMessage :=
  { S := none, p := some ⟨false, 1030, 782852278976512⟩, s := some 10,
    t := some 1700000000000, T := some 500000,
    b := [(some ⟨false, 1031, 774056185954304⟩, some 5)],
    a := [(some ⟨false, 1031, 782852278976512⟩, some 7)] }

/-! ## Sequences of calls, and the timing of the select -/

/-- A sequence of `getOrderBook` calls, one per symbol of the list, in
order: the books returned, and the package state left. -/
def getOrderBookAll {B : Type} (ops : OrderBookOps B) :
    List String → World B → List Nat × World B
  | [], g => ([], g)
  | symbol :: rest, g =>
    ((getOrderBook ops symbol g).1 :: (getOrderBookAll ops rest (getOrderBook ops symbol g).2).1,
     (getOrderBookAll ops rest (getOrderBook ops symbol g).2).2)

/-- A call into the package that works on the package state. -/
inductive Call where
  | getOrderBook (symbol : String)
  | TradeEach (raw : RawMessage)
  | BookEach (raw : RawMessage)
  | Write (pkt : writePacket)

/-- The package state after one call. -/
def World.call {B : Type} (ops : OrderBookOps B) (cvt : Float64 → Float32) (g : World B) :
    Call → World B
  | .getOrderBook symbol => (getOrderBook ops symbol g).2
  | .TradeEach raw => TradeEach cvt raw g
  | .BookEach raw => BookEach ops cvt raw g
  | .Write pkt => Write pkt g

/-- The package state after a history of calls, oldest first. -/
def World.calls {B : Type} (ops : OrderBookOps B) (cvt : Float64 → Float32) (g : World B)
    (history : List Call) : World B :=
  history.foldl (World.call ops cvt) g

/-- The registry is sound: every registered book lies below the next address
to allocate, and no two symbols share a book. -/
def World.RegistryOK {B : Type} (g : World B) : Prop :=
  (∀ s a, mapGet g.orderBooks s = some a → a < g.nextBook) ∧
  (∀ s s' a, mapGet g.orderBooks s = some a → mapGet g.orderBooks s' = some a → s = s')

/-- A sequence of `Write` calls, one per packet of the list, in order. -/
def WriteAll {B : Type} (pkts : List writePacket) (g : World B) : World B :=
  pkts.foldl (fun x pkt => Write pkt x) g

/-- The field `interval` of the writer `w` (line 137), in milliseconds. -/
def interval : Nat := 100

/-- The wake-ups of the select in `write` (lines 170-196) for packets that
become receivable at given times (in milliseconds, oldest first), over a given
number of loop iterations started at time `now`.  Each iteration evaluates
`time.After(w.interval)` anew, so its timer fires `ival` after the iteration
began; the select takes the packet when it is receivable before that, and
the timer otherwise.  Handling a wake-up takes no time, and when both are
ready at the same instant the timer is taken.  A wake-up is the time and the
packet received, or `none` for the timer branch. -/
def selectLoop (ival : Nat) : Nat → Nat → List (Nat × writePacket) →
    List (Nat × Option writePacket)
  | 0, _, _ => []
  | fuel + 1, now, [] => (now + ival, none) :: selectLoop ival fuel (now + ival) []
  | fuel + 1, now, (a, m) :: rest =>
    if a < now + ival then (max now a, some m) :: selectLoop ival fuel (max now a) rest
    else (now + ival, none) :: selectLoop ival fuel (now + ival) ((a, m) :: rest)

/-- The times at which the timer branch is taken. -/
def flushTimes (wakeups : List (Nat × Option writePacket)) : List Nat :=
  (wakeups.filter (fun e => e.2.isNone)).map Prod.fst

/-- The packet `m` arriving `n` times, `gap` milliseconds apart, the first
one `gap` after `start`. -/
def arrivalsEvery (gap : Nat) (m : writePacket) : Nat → Nat → List (Nat × writePacket)
  | _, 0 => []
  | start, n + 1 => (start + gap, m) :: arrivalsEvery gap m (start + gap) n

/-! ## Facts about slices and the heap -/

theorem Heap.read_length {α : Type} (h : Heap α) (s : Slice) : (h.read s).length = s.len := by
  simp [Heap.read]

section heap
variable {α : Type} [Inhabited α]

theorem goAppend_len (e : Nat → Nat) (h : Heap α) (s : Slice) (v : α) :
    (goAppend e h s v).2.len = s.len + 1 := by
  unfold goAppend; split <;> rfl

theorem goAppend_read_self (e : Nat → Nat) (h : Heap α) (s : Slice) (v : α) :
    (goAppend e h s v).1.read (goAppend e h s v).2 = h.read s ++ [v] := by
  unfold goAppend Heap.read
  split
  · simp only [List.range_succ, List.map_append, List.map_cons, List.map_nil, and_self, if_true]
    congr 1
    apply List.map_congr_left
    intro i hi
    have : i < s.len := List.mem_range.mp hi
    have hne : ¬ i = s.len := by omega
    simp [hne]
  · simp only [List.range_succ, List.map_append, List.map_cons, List.map_nil, if_true,
      lt_irrefl, if_false]
    congr 1
    apply List.map_congr_left
    intro i hi
    have : i < s.len := List.mem_range.mp hi
    simp [this]

theorem goAppend_read_other (e : Nat → Nat) (h : Heap α) (s t : Slice) (v : α)
    (ht : t.WF h) (hd : s.Apart t) : (goAppend e h s v).1.read t = h.read t := by
  unfold goAppend Heap.read
  obtain ⟨ht1, ht2⟩ := ht
  split
  · rename_i hlt
    apply List.map_congr_left
    intro i hi
    have hi2 : i < t.len := List.mem_range.mp hi
    have : ¬ (t.arr = s.arr ∧ i = s.len) := by
      rintro ⟨h1, -⟩
      rcases hd with hd | hd | hd
      · exact hd h1.symm
      · omega
      · omega
    simp [this]
  · apply List.map_congr_left
    intro i _
    have : ¬ t.arr = h.next := by omega
    simp [this]

theorem goAppend_wf_self (e : Nat → Nat) (h : Heap α) (s : Slice) (v : α) (hs : s.WF h) :
    (goAppend e h s v).2.WF (goAppend e h s v).1 := by
  unfold goAppend Slice.WF
  obtain ⟨hs1, hs2⟩ := hs
  split
  · exact ⟨hs1, by simpa using (by assumption : s.len < s.cap)⟩
  · exact ⟨by simp, by simp⟩

theorem goAppend_wf_other (e : Nat → Nat) (h : Heap α) (s t : Slice) (v : α) (ht : t.WF h) :
    t.WF (goAppend e h s v).1 := by
  unfold goAppend Slice.WF
  obtain ⟨ht1, ht2⟩ := ht
  split
  · exact ⟨ht1, ht2⟩
  · exact ⟨by simp; omega, ht2⟩

theorem goAppend_apart (e : Nat → Nat) (h : Heap α) (s t : Slice) (v : α) (ht : t.WF h)
    (hd : s.Apart t) : (goAppend e h s v).2.Apart t := by
  unfold goAppend Slice.Apart
  obtain ⟨ht1, ht2⟩ := ht
  split
  · exact hd
  · left
    simp only
    omega

end heap

theorem Slice.Apart.symm {s t : Slice} (h : s.Apart t) : t.Apart s := by
  rcases h with h | h | h
  · exact Or.inl (fun e => h e.symm)
  · exact Or.inr (Or.inr h)
  · exact Or.inr (Or.inl h)

/-! ## Facts about maps -/

theorem mapGet_mapSet_same {V : Type} (m : List (String × V)) (k : String) (v : V) :
    mapGet (mapSet m k v) k = some v := by
  induction m with
  | nil => simp [mapSet, mapGet]
  | cons e m ih =>
    obtain ⟨k', v'⟩ := e
    by_cases h : k' = k
    · simp [mapSet, mapGet, h]
    · simp [mapSet, mapGet, h, ih]

theorem mapGet_mapSet_other {V : Type} (m : List (String × V)) (k k' : String) (v : V)
    (h : k' ≠ k) : mapGet (mapSet m k v) k' = mapGet m k' := by
  induction m with
  | nil => simp [mapSet, mapGet, h.symm]
  | cons e m ih =>
    obtain ⟨k0, v0⟩ := e
    by_cases h0 : k0 = k
    · subst h0
      simp [mapSet, mapGet, h.symm]
    · by_cases h1 : k0 = k'
      · subst h1
        simp [mapSet, mapGet, h0]
      · simp [mapSet, mapGet, h0, h1, ih]

theorem mapSet_keys {V : Type} (m : List (String × V)) (k : String) (v v0 : V)
    (h : mapGet m k = some v0) : (mapSet m k v).map Prod.fst = m.map Prod.fst := by
  induction m with
  | nil => simp [mapGet] at h
  | cons e m ih =>
    obtain ⟨k', v'⟩ := e
    by_cases hk : k' = k
    · simp [mapSet, hk]
    · simp only [mapGet, hk, if_false] at h
      simp [mapSet, hk, ih h]

/-! ## The packet branch -/

theorem recv_spec (w : writer) (K : TimeBucketKey) (e : Data)
    (h : ∀ bucket, mapGet w.dataBuckets K = some bucket → bucket.isQuote = e.isQuote) :
    ∃ w', w.recv ⟨K, e⟩ = some w' ∧
      w'.buffer K = w.buffer K ++ [e] ∧
      (∀ bucket, mapGet w'.dataBuckets K = some bucket → bucket.isQuote = e.isQuote) ∧
      (∀ K', K' ≠ K → mapGet w'.dataBuckets K' = mapGet w.dataBuckets K') := by
  unfold writer.recv
  cases hg : mapGet w.dataBuckets K with
  | none =>
    cases e with
    | ofQuote q =>
      refine ⟨_, rfl, ?_, ?_, ?_⟩
      · simp [writer.buffer, hg, mapGet_mapSet_same, Bucket.events]
      · intro bucket hb
        simp only [mapGet_mapSet_same, Option.some.injEq] at hb
        subst hb; rfl
      · intro K' hK'
        exact mapGet_mapSet_other _ _ _ _ hK'
    | ofTrade t =>
      refine ⟨_, rfl, ?_, ?_, ?_⟩
      · simp [writer.buffer, hg, mapGet_mapSet_same, Bucket.events]
      · intro bucket hb
        simp only [mapGet_mapSet_same, Option.some.injEq] at hb
        subst hb; rfl
      · intro K' hK'
        exact mapGet_mapSet_other _ _ _ _ hK'
  | some bucket =>
    have hk := h bucket hg
    cases e with
    | ofQuote q =>
      cases bucket with
      | trades b => simp [Bucket.isQuote, Data.isQuote] at hk
      | quotes b =>
        refine ⟨_, rfl, ?_, ?_, ?_⟩
        · simp [writer.buffer, hg, mapGet_mapSet_same, Bucket.events]
        · intro bucket hb
          simp only [mapGet_mapSet_same, Option.some.injEq] at hb
          subst hb; rfl
        · intro K' hK'
          exact mapGet_mapSet_other _ _ _ _ hK'
    | ofTrade t =>
      cases bucket with
      | quotes b => simp [Bucket.isQuote, Data.isQuote] at hk
      | trades b =>
        refine ⟨_, rfl, ?_, ?_, ?_⟩
        · simp [writer.buffer, hg, mapGet_mapSet_same, Bucket.events]
        · intro bucket hb
          simp only [mapGet_mapSet_same, Option.some.injEq] at hb
          subst hb; rfl
        · intro K' hK'
          exact mapGet_mapSet_other _ _ _ _ hK'

theorem appendTrade_frame (extra : Nat → Nat → Nat) (w : writer) (t : trade) :
    (w.appendTrade extra t).dataBuckets = w.dataBuckets ∧
    (w.appendTrade extra t).csm = w.csm ∧
    (w.appendTrade extra t).bidPx = w.bidPx ∧
    (w.appendTrade extra t).askPx = w.askPx ∧
    (w.appendTrade extra t).bidSz = w.bidSz ∧
    (w.appendTrade extra t).askSz = w.askSz ∧
    (w.appendTrade extra t).epoch.len = w.epoch.len + 1 ∧
    (w.appendTrade extra t).nanos.len = w.nanos.len + 1 ∧
    (w.appendTrade extra t).px.len = w.px.len + 1 ∧
    (w.appendTrade extra t).sz.len = w.sz.len + 1 := by
  simp [writer.appendTrade, writer.pushEpoch, writer.pushNanos, writer.pushPx, writer.pushSz,
    goAppend_len]

theorem appendQuote_frame (extra : Nat → Nat → Nat) (w : writer) (q : quote) :
    (w.appendQuote extra q).dataBuckets = w.dataBuckets ∧
    (w.appendQuote extra q).csm = w.csm ∧
    (w.appendQuote extra q).px = w.px ∧
    (w.appendQuote extra q).sz = w.sz ∧
    (w.appendQuote extra q).epoch.len = w.epoch.len + 1 ∧
    (w.appendQuote extra q).nanos.len = w.nanos.len + 1 ∧
    (w.appendQuote extra q).bidPx.len = w.bidPx.len + 1 ∧
    (w.appendQuote extra q).askPx.len = w.askPx.len + 1 ∧
    (w.appendQuote extra q).bidSz.len = w.bidSz.len + 1 ∧
    (w.appendQuote extra q).askSz.len = w.askSz.len + 1 := by
  simp [writer.appendQuote, writer.pushEpoch, writer.pushNanos, writer.pushBidPx,
    writer.pushAskPx, writer.pushBidSz, writer.pushAskSz, goAppend_len]

theorem foldTrade_frame (extra : Nat → Nat → Nat) (b : List trade) (w : writer) :
    (b.foldl (writer.appendTrade extra) w).dataBuckets = w.dataBuckets ∧
    (b.foldl (writer.appendTrade extra) w).csm = w.csm ∧
    (b.foldl (writer.appendTrade extra) w).bidPx = w.bidPx ∧
    (b.foldl (writer.appendTrade extra) w).askPx = w.askPx ∧
    (b.foldl (writer.appendTrade extra) w).bidSz = w.bidSz ∧
    (b.foldl (writer.appendTrade extra) w).askSz = w.askSz ∧
    (b.foldl (writer.appendTrade extra) w).epoch.len = w.epoch.len + b.length ∧
    (b.foldl (writer.appendTrade extra) w).nanos.len = w.nanos.len + b.length ∧
    (b.foldl (writer.appendTrade extra) w).px.len = w.px.len + b.length ∧
    (b.foldl (writer.appendTrade extra) w).sz.len = w.sz.len + b.length := by
  induction b generalizing w with
  | nil => simp
  | cons t b ih =>
    have h1 := appendTrade_frame extra w t
    have h2 := ih (w.appendTrade extra t)
    simp only [List.foldl_cons, List.length_cons]
    obtain ⟨a1, a2, a3, a4, a5, a6, a7, a8, a9, a10⟩ := h1
    obtain ⟨c1, c2, c3, c4, c5, c6, c7, c8, c9, c10⟩ := h2
    refine ⟨c1.trans a1, c2.trans a2, c3.trans a3, c4.trans a4, c5.trans a5, c6.trans a6,
      ?_, ?_, ?_, ?_⟩ <;> omega

theorem foldQuote_frame (extra : Nat → Nat → Nat) (b : List quote) (w : writer) :
    (b.foldl (writer.appendQuote extra) w).dataBuckets = w.dataBuckets ∧
    (b.foldl (writer.appendQuote extra) w).csm = w.csm ∧
    (b.foldl (writer.appendQuote extra) w).px = w.px ∧
    (b.foldl (writer.appendQuote extra) w).sz = w.sz ∧
    (b.foldl (writer.appendQuote extra) w).epoch.len = w.epoch.len + b.length ∧
    (b.foldl (writer.appendQuote extra) w).nanos.len = w.nanos.len + b.length ∧
    (b.foldl (writer.appendQuote extra) w).bidPx.len = w.bidPx.len + b.length ∧
    (b.foldl (writer.appendQuote extra) w).askPx.len = w.askPx.len + b.length ∧
    (b.foldl (writer.appendQuote extra) w).bidSz.len = w.bidSz.len + b.length ∧
    (b.foldl (writer.appendQuote extra) w).askSz.len = w.askSz.len + b.length := by
  induction b generalizing w with
  | nil => simp
  | cons t b ih =>
    have h1 := appendQuote_frame extra w t
    have h2 := ih (w.appendQuote extra t)
    simp only [List.foldl_cons, List.length_cons]
    obtain ⟨a1, a2, a3, a4, a5, a6, a7, a8, a9, a10⟩ := h1
    obtain ⟨c1, c2, c3, c4, c5, c6, c7, c8, c9, c10⟩ := h2
    refine ⟨c1.trans a1, c2.trans a2, c3.trans a3, c4.trans a4, ?_, ?_, ?_, ?_,
      ?_, ?_⟩ <;> omega

/-- What one iteration of the range loop does to the buckets: nothing when
the guard fails (the bucket is then empty), otherwise the bucket is
truncated. -/
theorem visit_buckets (extra : Nat → Nat → Nat) (w : writer) (tbk : TimeBucketKey) :
    ((w.visit extra tbk).dataBuckets = w.dataBuckets ∧
      (w.visit extra tbk).csm = w.csm ∧
      ∀ bucket, mapGet w.dataBuckets tbk = some bucket → bucket.events = []) ∨
    (∃ bucket, mapGet w.dataBuckets tbk = some bucket ∧
      (w.visit extra tbk).dataBuckets = mapSet w.dataBuckets tbk bucket.emptied) := by
  unfold writer.visit
  cases hg : mapGet w.dataBuckets tbk with
  | none => left; simp
  | some bucket =>
    cases bucket with
    | quotes b =>
      have hf := foldQuote_frame extra b w
      obtain ⟨c1, c2, -, -, c6, -⟩ := hf
      simp only [writer.emitQuote]
      split
      · right
        exact ⟨_, rfl, by simp [c1, Bucket.emptied]⟩
      · left
        rename_i hlt
        refine ⟨c1, c2, ?_⟩
        intro bucket hb
        simp only [Option.some.injEq] at hb
        subst hb
        have : b.length = 0 := by omega
        simp [Bucket.events, List.length_eq_zero.mp this]
    | trades b =>
      have hf := foldTrade_frame extra b w
      obtain ⟨c1, c2, -, -, -, -, c8, -⟩ := hf
      simp only [writer.emitTrade]
      split
      · right
        exact ⟨_, rfl, by simp [c1, Bucket.emptied]⟩
      · left
        rename_i hlt
        refine ⟨c1, c2, ?_⟩
        intro bucket hb
        simp only [Option.some.injEq] at hb
        subst hb
        have : b.length = 0 := by omega
        simp [Bucket.events, List.length_eq_zero.mp this]

theorem emptied_events (bucket : Bucket) : bucket.emptied.events = [] := by
  cases bucket <;> rfl

theorem emptied_isQuote (bucket : Bucket) : bucket.emptied.isQuote = bucket.isQuote := by
  cases bucket <;> rfl

/-- One iteration of the range loop keeps the kind of every bucket, and adds
no bucket. -/
theorem visit_kind (extra : Nat → Nat → Nat) (w : writer) (tbk K : TimeBucketKey)
    (bucket' : Bucket) (h : mapGet (w.visit extra tbk).dataBuckets K = some bucket') :
    ∃ bucket, mapGet w.dataBuckets K = some bucket ∧ bucket.isQuote = bucket'.isQuote := by
  rcases visit_buckets extra w tbk with ⟨h1, -, -⟩ | ⟨bucket, hg, h1⟩
  · rw [h1] at h
    exact ⟨bucket', h, rfl⟩
  · rw [h1] at h
    by_cases hk : K = tbk
    · subst hk
      rw [mapGet_mapSet_same] at h
      simp only [Option.some.injEq] at h
      subst h
      exact ⟨bucket, hg, (emptied_isQuote bucket).symm⟩
    · rw [mapGet_mapSet_other _ _ _ _ hk] at h
      exact ⟨bucket', h, rfl⟩

theorem foldVisit_kind (extra : Nat → Nat → Nat) (order : List TimeBucketKey) (w : writer)
    (K : TimeBucketKey) (bucket' : Bucket)
    (h : mapGet (order.foldl (writer.visit extra) w).dataBuckets K = some bucket') :
    ∃ bucket, mapGet w.dataBuckets K = some bucket ∧ bucket.isQuote = bucket'.isQuote := by
  induction order generalizing w with
  | nil => exact ⟨bucket', h, rfl⟩
  | cons tbk order ih =>
    simp only [List.foldl_cons] at h
    obtain ⟨b1, hb1, hq1⟩ := ih _ h
    obtain ⟨b0, hb0, hq0⟩ := visit_kind extra w tbk K b1 hb1
    exact ⟨b0, hb0, hq0.trans hq1⟩

theorem tick_kind (extra : Nat → Nat → Nat) (order : List TimeBucketKey) (w : writer)
    (K : TimeBucketKey) (bucket' : Bucket)
    (h : mapGet (w.tick extra order).dataBuckets K = some bucket') :
    ∃ bucket, mapGet w.dataBuckets K = some bucket ∧ bucket.isQuote = bucket'.isQuote := by
  unfold writer.tick at h
  have h2 := foldVisit_kind extra order { w with csm := [] } K bucket' h
  exact h2

theorem visit_ready_preserve (extra : Nat → Nat → Nat) (w : writer) (tbk : TimeBucketKey)
    (k : Bool) (h : w.Ready k) : (w.visit extra tbk).Ready k := by
  unfold writer.visit
  cases hg : mapGet w.dataBuckets tbk with
  | none => exact h
  | some bucket =>
    cases bucket with
    | quotes b =>
      obtain ⟨-, -, c4, c5, c6, c7, c8, c9, c10, c11⟩ := foldQuote_frame extra b w
      simp only [writer.emitQuote]
      split
      · cases k <;> simp_all [writer.Ready, Slice.trim]
      · cases k <;> simp_all [writer.Ready]
    | trades b =>
      obtain ⟨-, -, c4, c5, c6, c7, c8, c9, c10, c11⟩ := foldTrade_frame extra b w
      simp only [writer.emitTrade]
      split
      · cases k <;> simp_all [writer.Ready, Slice.trim]
      · cases k <;> simp_all [writer.Ready]

theorem visit_ready_establish (extra : Nat → Nat → Nat) (w : writer) (tbk : TimeBucketKey)
    (bucket : Bucket) (hg : mapGet w.dataBuckets tbk = some bucket) (hne : bucket.events ≠ []) :
    (w.visit extra tbk).Ready bucket.isQuote := by
  unfold writer.visit
  rw [hg]
  cases bucket with
  | quotes b =>
    obtain ⟨-, -, c4, c5, c6, c7, c8, c9, c10, c11⟩ := foldQuote_frame extra b w
    have hb : 0 < b.length := by
      cases b with
      | nil => simp [Bucket.events] at hne
      | cons _ _ => simp
    have hlt : 0 < (b.foldl (writer.appendQuote extra) w).epoch.len := by omega
    simp [writer.emitQuote, hlt, writer.Ready, Slice.trim, Bucket.isQuote]
  | trades b =>
    obtain ⟨-, -, c4, c5, c6, c7, c8, c9, c10, c11⟩ := foldTrade_frame extra b w
    have hb : 0 < b.length := by
      cases b with
      | nil => simp [Bucket.events] at hne
      | cons _ _ => simp
    have hlt : 0 < (b.foldl (writer.appendTrade extra) w).epoch.len := by omega
    simp [writer.emitTrade, hlt, writer.Ready, Slice.trim, Bucket.isQuote]

theorem foldVisit_ready_preserve (extra : Nat → Nat → Nat) (order : List TimeBucketKey)
    (w : writer) (k : Bool) (h : w.Ready k) : (order.foldl (writer.visit extra) w).Ready k := by
  induction order generalizing w with
  | nil => exact h
  | cons tbk order ih => exact ih _ (visit_ready_preserve extra w tbk k h)

/-- A visit of one key leaves the bucket of every other key as it is. -/
theorem visit_other (extra : Nat → Nat → Nat) (w : writer) (tbk K : TimeBucketKey)
    (hk : K ≠ tbk) : mapGet (w.visit extra tbk).dataBuckets K = mapGet w.dataBuckets K := by
  rcases visit_buckets extra w tbk with ⟨h1, -, -⟩ | ⟨bucket, -, h1⟩
  · rw [h1]
  · rw [h1, mapGet_mapSet_other _ _ _ _ hk]

/-- A visit of a key leaves its bucket truncated. -/
theorem visit_same (extra : Nat → Nat → Nat) (w : writer) (tbk : TimeBucketKey)
    (bucket : Bucket) (hg : mapGet w.dataBuckets tbk = some bucket) :
    mapGet (w.visit extra tbk).dataBuckets tbk = some bucket.emptied := by
  rcases visit_buckets extra w tbk with ⟨h1, -, h4⟩ | ⟨bucket', hg', h1⟩
  · rw [h1, hg]
    have := h4 bucket hg
    cases bucket with
    | quotes b => simp [Bucket.events] at this; simp [this, Bucket.emptied]
    | trades b => simp [Bucket.events] at this; simp [this, Bucket.emptied]
  · rw [h1, mapGet_mapSet_same]
    rw [hg] at hg'
    simp only [Option.some.injEq] at hg'
    rw [hg']

theorem emptied_emptied (bucket : Bucket) : bucket.emptied.emptied = bucket.emptied := by
  cases bucket <;> rfl

theorem foldVisit_bucket (extra : Nat → Nat → Nat) (order : List TimeBucketKey) (w : writer)
    (K : TimeBucketKey) (bucket : Bucket) (hg : mapGet w.dataBuckets K = some bucket) :
    mapGet (order.foldl (writer.visit extra) w).dataBuckets K =
      some (if K ∈ order then bucket.emptied else bucket) := by
  induction order generalizing w bucket with
  | nil => simpa using hg
  | cons tbk order ih =>
    simp only [List.foldl_cons]
    by_cases hk : K = tbk
    · subst hk
      rw [ih _ _ (visit_same extra w K bucket hg)]
      simp [emptied_emptied]
    · rw [ih _ _ ((visit_other extra w tbk K hk).trans hg)]
      simp [hk]

theorem foldVisit_ready (extra : Nat → Nat → Nat) (order : List TimeBucketKey) (w : writer)
    (K : TimeBucketKey) (bucket : Bucket) (hg : mapGet w.dataBuckets K = some bucket)
    (hne : bucket.events ≠ []) (hK : K ∈ order) :
    (order.foldl (writer.visit extra) w).Ready bucket.isQuote := by
  induction order generalizing w with
  | nil => simp at hK
  | cons tbk order ih =>
    simp only [List.foldl_cons]
    by_cases hk : K = tbk
    · subst hk
      exact foldVisit_ready_preserve extra order _ _ (visit_ready_establish extra w K bucket hg hne)
    · have hK' : K ∈ order := by
        rcases List.mem_cons.mp hK with h | h
        · exact absurd h hk
        · exact h
      exact ih _ ((visit_other extra w tbk K hk).trans hg) hK'

theorem mapGet_mem_keys {V : Type} (m : List (String × V)) (k : String) (v : V)
    (h : mapGet m k = some v) : k ∈ m.map Prod.fst := by
  induction m with
  | nil => simp [mapGet] at h
  | cons e m ih =>
    obtain ⟨k', v'⟩ := e
    by_cases hk : k' = k
    · simp [hk]
    · simp only [mapGet, hk, if_false] at h
      simp [ih h]

theorem visit_keys (extra : Nat → Nat → Nat) (w : writer) (tbk : TimeBucketKey) :
    (w.visit extra tbk).dataBuckets.map Prod.fst = w.dataBuckets.map Prod.fst := by
  rcases visit_buckets extra w tbk with ⟨h1, -, -⟩ | ⟨bucket, hg, h1⟩
  · rw [h1]
  · rw [h1, mapSet_keys _ _ _ _ hg]

theorem foldVisit_keys (extra : Nat → Nat → Nat) (order : List TimeBucketKey) (w : writer) :
    (order.foldl (writer.visit extra) w).dataBuckets.map Prod.fst =
      w.dataBuckets.map Prod.fst := by
  induction order generalizing w with
  | nil => rfl
  | cons tbk order ih =>
    simp only [List.foldl_cons]
    rw [ih, visit_keys]

theorem columnLengths_eq (w : writer) (K : TimeBucketKey) :
    w.columnLengths K =
      (w.csm.filter (fun e => e.1 = K)).map (fun e => (e.2.1, e.2.2.slice.len)) := by
  unfold writer.columnLengths writer.columnsOf
  rw [List.map_map]
  apply List.map_congr_left
  intro e _
  obtain ⟨k, n, c⟩ := e
  cases c <;> simp [writer.column, ColumnData.length, Column.slice, Heap.read_length]

/-- A visit of one key adds no column under another key. -/
theorem visit_csm_other (extra : Nat → Nat → Nat) (w : writer) (tbk K : TimeBucketKey)
    (hk : K ≠ tbk) :
    (w.visit extra tbk).csm.filter (fun e => e.1 = K) = w.csm.filter (fun e => e.1 = K) := by
  have hk' : ¬ tbk = K := fun e => hk e.symm
  unfold writer.visit
  cases hg : mapGet w.dataBuckets tbk with
  | none => rfl
  | some bucket =>
    cases bucket with
    | quotes b =>
      obtain ⟨-, c2, -⟩ := foldQuote_frame extra b w
      simp only [writer.emitQuote]
      split
      · simp [AddColumn, List.filter_append, hk', c2]
      · simp [c2]
    | trades b =>
      obtain ⟨-, c2, -⟩ := foldTrade_frame extra b w
      simp only [writer.emitTrade]
      split
      · simp [AddColumn, List.filter_append, hk', c2]
      · simp [c2]

/-- A visit of an empty bucket with the epoch scratch slice empty changes
nothing. -/
theorem visit_noop (extra : Nat → Nat → Nat) (w : writer) (tbk : TimeBucketKey)
    (bucket : Bucket) (hg : mapGet w.dataBuckets tbk = some bucket) (he : bucket.events = [])
    (h0 : w.epoch.len = 0) : w.visit extra tbk = w := by
  unfold writer.visit
  rw [hg]
  cases bucket with
  | quotes b =>
    simp only [Bucket.events, List.map_eq_nil_iff] at he
    subst he
    simp [writer.emitQuote, h0]
  | trades b =>
    simp only [Bucket.events, List.map_eq_nil_iff] at he
    subst he
    simp [writer.emitTrade, h0]

/-- A visit of a one-event bucket, with the scratch slices of its kind
empty, adds the columns of the kind, each of length one. -/
theorem visit_single (extra : Nat → Nat → Nat) (w : writer) (K : TimeBucketKey)
    (bucket : Bucket) (hg : mapGet w.dataBuckets K = some bucket)
    (h1 : bucket.events.length = 1) (hr : w.Ready bucket.isQuote) :
    (w.visit extra K).columnLengths K =
      w.columnLengths K ++ (columnNames bucket.isQuote).map (fun n => (n, 1)) := by
  rw [columnLengths_eq, columnLengths_eq]
  unfold writer.visit
  rw [hg]
  cases bucket with
  | quotes b =>
    obtain ⟨q, rfl⟩ : ∃ q, b = [q] := by
      simp only [Bucket.events, List.length_map] at h1
      exact List.length_eq_one.mp h1
    obtain ⟨-, c2, -, -, c6, c7, c8, c9, c10, c11⟩ := appendQuote_frame extra w q
    simp only [writer.Ready, Bucket.isQuote, if_true] at hr
    obtain ⟨r1, r2, r3, r4, r5, r6⟩ := hr
    have hlt : 0 < (w.appendQuote extra q).epoch.len := by omega
    simp [writer.emitQuote, hlt, AddColumn, List.filter_append, c2, columnNames, Column.slice,
      Bucket.isQuote, c6, c7, c8, c9, c10, c11, r1, r2, r3, r4, r5, r6]
  | trades b =>
    obtain ⟨t, rfl⟩ : ∃ t, b = [t] := by
      simp only [Bucket.events, List.length_map] at h1
      exact List.length_eq_one.mp h1
    obtain ⟨-, c2, -, -, -, -, c8, c9, c10, c11⟩ := appendTrade_frame extra w t
    simp only [writer.Ready, Bucket.isQuote] at hr
    obtain ⟨r1, r2, r3, r4⟩ := hr
    have hlt : 0 < (w.appendTrade extra t).epoch.len := by omega
    simp [writer.emitTrade, hlt, AddColumn, List.filter_append, c2, columnNames, Column.slice,
      Bucket.isQuote, c8, c9, c10, c11, r1, r2, r3, r4]

/-- Once the one-event bucket of `K` is flushed, the rest of the loop leaves
the columns of `K` alone. -/
theorem foldVisit_flushed (extra : Nat → Nat → Nat) (order : List TimeBucketKey) (w : writer)
    (K : TimeBucketKey) (bucket : Bucket) (hg : mapGet w.dataBuckets K = some bucket)
    (he : bucket.events = []) (hr : w.Ready bucket.isQuote) :
    (order.foldl (writer.visit extra) w).columnLengths K = w.columnLengths K := by
  induction order generalizing w with
  | nil => rfl
  | cons tbk order ih =>
    simp only [List.foldl_cons]
    by_cases hk : K = tbk
    · subst hk
      rw [visit_noop extra w K bucket hg he hr.1]
      exact ih w hg hr
    · rw [ih _ ((visit_other extra w tbk K hk).trans hg) (visit_ready_preserve extra w tbk _ hr)]
      rw [columnLengths_eq, columnLengths_eq, visit_csm_other extra w tbk K hk]

/-- A loop that visits `K`, holding one event, records for `K` the columns of
its kind with length one. -/
theorem foldVisit_single (extra : Nat → Nat → Nat) (order : List TimeBucketKey) (w : writer)
    (K : TimeBucketKey) (bucket : Bucket) (hg : mapGet w.dataBuckets K = some bucket)
    (h1 : bucket.events.length = 1) (hr : w.Ready bucket.isQuote) (hK : K ∈ order) :
    (order.foldl (writer.visit extra) w).columnLengths K =
      w.columnLengths K ++ (columnNames bucket.isQuote).map (fun n => (n, 1)) := by
  induction order generalizing w with
  | nil => simp at hK
  | cons tbk order ih =>
    simp only [List.foldl_cons]
    by_cases hk : K = tbk
    · subst hk
      have hr' := visit_ready_preserve extra w K _ hr
      rw [← emptied_isQuote] at hr'
      rw [foldVisit_flushed extra order _ K bucket.emptied (visit_same extra w K bucket hg)
        (emptied_events bucket) hr']
      exact visit_single extra w K bucket hg h1 hr
    · have hK' : K ∈ order := by
        rcases List.mem_cons.mp hK with h | h
        · exact absurd h hk
        · exact h
      rw [ih _ ((visit_other extra w tbk K hk).trans hg) (visit_ready_preserve extra w tbk _ hr) hK']
      rw [columnLengths_eq, columnLengths_eq, visit_csm_other extra w tbk K hk]

/-! ## The trade columns -/

theorem appendTrade_reads (extra : Nat → Nat → Nat) (w : writer) (t : trade) (hs : w.Sep) :
    (w.appendTrade extra t).mem64.read (w.appendTrade extra t).epoch =
        w.mem64.read w.epoch ++ [t.epoch] ∧
    (w.appendTrade extra t).mem32.read (w.appendTrade extra t).nanos =
        w.mem32.read w.nanos ++ [t.nanos] ∧
    (w.appendTrade extra t).memF.read (w.appendTrade extra t).px =
        w.memF.read w.px ++ [t.px] ∧
    (w.appendTrade extra t).mem32.read (w.appendTrade extra t).sz =
        w.mem32.read w.sz ++ [t.sz] ∧
    (w.appendTrade extra t).Sep := by
  obtain ⟨hn, hz, ha⟩ := hs
  have hz1 := goAppend_wf_other (extra 4) w.mem32 w.nanos w.sz t.nanos hz
  have hn1 := goAppend_wf_self (extra 4) w.mem32 w.nanos t.nanos hn
  have ha1 := goAppend_apart (extra 4) w.mem32 w.nanos w.sz t.nanos hz ha
  have hr1 := goAppend_read_other (extra 4) w.mem32 w.nanos w.sz t.nanos hz ha
  have hn2 := goAppend_wf_other (extra 4) (goAppend (extra 4) w.mem32 w.nanos t.nanos).1 w.sz
    (goAppend (extra 4) w.mem32 w.nanos t.nanos).2 t.sz hn1
  have hz2 := goAppend_wf_self (extra 4) (goAppend (extra 4) w.mem32 w.nanos t.nanos).1 w.sz
    t.sz hz1
  have ha2 := goAppend_apart (extra 4) (goAppend (extra 4) w.mem32 w.nanos t.nanos).1 w.sz
    (goAppend (extra 4) w.mem32 w.nanos t.nanos).2 t.sz hn1 ha1.symm
  have hr2 := goAppend_read_other (extra 4) (goAppend (extra 4) w.mem32 w.nanos t.nanos).1 w.sz
    (goAppend (extra 4) w.mem32 w.nanos t.nanos).2 t.sz hn1 ha1.symm
  refine ⟨?_, ?_, ?_, ?_, ?_, ?_, ?_⟩
  · simp [writer.appendTrade, writer.pushEpoch, writer.pushNanos, writer.pushPx, writer.pushSz,
      goAppend_read_self]
  · simp only [writer.appendTrade, writer.pushEpoch, writer.pushNanos, writer.pushPx,
      writer.pushSz]
    rw [hr2, goAppend_read_self]
  · simp [writer.appendTrade, writer.pushEpoch, writer.pushNanos, writer.pushPx, writer.pushSz,
      goAppend_read_self]
  · simp only [writer.appendTrade, writer.pushEpoch, writer.pushNanos, writer.pushPx,
      writer.pushSz]
    rw [goAppend_read_self, hr1]
  · exact hn2
  · exact hz2
  · exact ha2.symm

theorem foldTrade_reads (extra : Nat → Nat → Nat) (b : List trade) (w : writer) (hs : w.Sep) :
    (b.foldl (writer.appendTrade extra) w).mem64.read (b.foldl (writer.appendTrade extra) w).epoch =
        w.mem64.read w.epoch ++ b.map trade.epoch ∧
    (b.foldl (writer.appendTrade extra) w).mem32.read (b.foldl (writer.appendTrade extra) w).nanos =
        w.mem32.read w.nanos ++ b.map trade.nanos ∧
    (b.foldl (writer.appendTrade extra) w).memF.read (b.foldl (writer.appendTrade extra) w).px =
        w.memF.read w.px ++ b.map trade.px ∧
    (b.foldl (writer.appendTrade extra) w).mem32.read (b.foldl (writer.appendTrade extra) w).sz =
        w.mem32.read w.sz ++ b.map trade.sz ∧
    (b.foldl (writer.appendTrade extra) w).Sep := by
  induction b generalizing w with
  | nil => simpa using hs
  | cons t b ih =>
    obtain ⟨a1, a2, a3, a4, a5⟩ := appendTrade_reads extra w t hs
    obtain ⟨c1, c2, c3, c4, c5⟩ := ih (w.appendTrade extra t) a5
    simp only [List.foldl_cons, List.map_cons]
    refine ⟨?_, ?_, ?_, ?_, c5⟩
    · rw [c1, a1]; simp
    · rw [c2, a2]; simp
    · rw [c3, a3]; simp
    · rw [c4, a4]; simp

theorem appendQuote_sep (extra : Nat → Nat → Nat) (w : writer) (q : quote) (hs : w.Sep) :
    (w.appendQuote extra q).Sep := by
  obtain ⟨hn, hz, ha⟩ := hs
  have hz1 := goAppend_wf_other (extra 4) w.mem32 w.nanos w.sz q.nanos hz
  have hn1 := goAppend_wf_self (extra 4) w.mem32 w.nanos q.nanos hn
  have ha1 := goAppend_apart (extra 4) w.mem32 w.nanos w.sz q.nanos hz ha
  have hn2 := goAppend_wf_other (extra 4) (goAppend (extra 4) w.mem32 w.nanos q.nanos).1 w.bidSz
    (goAppend (extra 4) w.mem32 w.nanos q.nanos).2 q.bidSz hn1
  have hz2 := goAppend_wf_other (extra 4) (goAppend (extra 4) w.mem32 w.nanos q.nanos).1 w.bidSz
    w.sz q.bidSz hz1
  have hn3 := goAppend_wf_other (extra 4)
    (goAppend (extra 4) (goAppend (extra 4) w.mem32 w.nanos q.nanos).1 w.bidSz q.bidSz).1 w.askSz
    (goAppend (extra 4) w.mem32 w.nanos q.nanos).2 q.askSz hn2
  have hz3 := goAppend_wf_other (extra 4)
    (goAppend (extra 4) (goAppend (extra 4) w.mem32 w.nanos q.nanos).1 w.bidSz q.bidSz).1 w.askSz
    w.sz q.askSz hz2
  exact ⟨hn3, hz3, ha1⟩

theorem foldQuote_sep (extra : Nat → Nat → Nat) (b : List quote) (w : writer) (hs : w.Sep) :
    (b.foldl (writer.appendQuote extra) w).Sep := by
  induction b generalizing w with
  | nil => exact hs
  | cons q b ih => exact ih _ (appendQuote_sep extra w q hs)

theorem trim_wf {α : Type} (h : Heap α) (s : Slice) (hs : s.WF h) : s.trim.WF h :=
  ⟨hs.1, Nat.zero_le _⟩

theorem visit_sep (extra : Nat → Nat → Nat) (w : writer) (tbk : TimeBucketKey) (hs : w.Sep) :
    (w.visit extra tbk).Sep := by
  unfold writer.visit
  cases hg : mapGet w.dataBuckets tbk with
  | none => exact hs
  | some bucket =>
    cases bucket with
    | quotes b =>
      obtain ⟨hn, hz, ha⟩ := foldQuote_sep extra b w hs
      simp only [writer.emitQuote]
      split
      · exact ⟨trim_wf _ _ hn, hz, ha⟩
      · exact ⟨hn, hz, ha⟩
    | trades b =>
      obtain ⟨-, -, -, -, hn, hz, ha⟩ := foldTrade_reads extra b w hs
      simp only [writer.emitTrade]
      split
      · exact ⟨trim_wf _ _ hn, trim_wf _ _ hz, ha⟩
      · exact ⟨hn, hz, ha⟩

theorem visit_scratchEmpty (extra : Nat → Nat → Nat) (w : writer) (tbk : TimeBucketKey)
    (h : w.ScratchEmpty) : (w.visit extra tbk).ScratchEmpty := by
  have h1 : w.Ready true := by
    unfold writer.ScratchEmpty at h
    simp [writer.Ready, h]
  have h2 : w.Ready false := by
    unfold writer.ScratchEmpty at h
    simp [writer.Ready, h]
  have h3 := visit_ready_preserve extra w tbk true h1
  have h4 := visit_ready_preserve extra w tbk false h2
  simp only [writer.Ready, if_true] at h3
  simp only [writer.Ready] at h4
  simp at h4
  exact ⟨h3.1, h3.2.1, h3.2.2.1, h3.2.2.2.1, h4.2.2.1, h3.2.2.2.2.1, h3.2.2.2.2.2, h4.2.2.2⟩

theorem foldVisit_inv (extra : Nat → Nat → Nat) (order : List TimeBucketKey) (w : writer)
    (h : w.ScratchEmpty ∧ w.Sep) :
    (order.foldl (writer.visit extra) w).ScratchEmpty ∧ (order.foldl (writer.visit extra) w).Sep := by
  induction order generalizing w with
  | nil => exact h
  | cons tbk order ih =>
    exact ih _ ⟨visit_scratchEmpty extra w tbk h.1, visit_sep extra w tbk h.2⟩

theorem recv_inv (w w' : writer) (m : writePacket) (hr : w.recv m = some w')
    (h : w.ScratchEmpty ∧ w.Sep) : w'.ScratchEmpty ∧ w'.Sep := by
  unfold writer.recv at hr
  split at hr
  · split at hr
    · simp only [Option.some.injEq] at hr; subst hr; exact h
    · simp only [Option.some.injEq] at hr; subst hr; exact h
    · simp at hr
  · split at hr
    · simp only [Option.some.injEq] at hr; subst hr; exact h
    · simp only [Option.some.injEq] at hr; subst hr; exact h

/-- Every state the loop of `write` reaches from the start has its scratch
slices empty and the trade slices separate. -/
theorem write_inv (extra : Nat → Nat → Nat) (steps : List Step) :
    ∀ w w' : writer, writer.write extra w steps = some w' → w.ScratchEmpty ∧ w.Sep →
      w'.ScratchEmpty ∧ w'.Sep := by
  induction steps with
  | nil =>
    intro w w' hw h
    simp only [writer.write, Option.some.injEq] at hw
    subst hw; exact h
  | cons s rest ih =>
    intro w w' hw h
    simp only [writer.write] at hw
    cases s with
    | packet m =>
      simp only [writer.step] at hw
      cases hr : w.recv m with
      | none => rw [hr] at hw; simp at hw
      | some w1 =>
        rw [hr] at hw
        exact ih w1 w' hw (recv_inv w w1 m hr h)
    | timer order =>
      simp only [writer.step] at hw
      exact ih _ w' hw (foldVisit_inv extra order { w with csm := [] } h)

theorem init_inv : writer.init.ScratchEmpty ∧ writer.init.Sep := by
  refine ⟨?_, ?_, ?_, ?_⟩
  · simp [writer.ScratchEmpty, writer.init, Slice.nil]
  · simp [Slice.WF, writer.init, Slice.nil, Heap.empty]
  · simp [Slice.WF, writer.init, Slice.nil, Heap.empty]
  · simp [Slice.Apart, writer.init, Slice.nil]

/-- A visit of a key without events, with the epoch scratch slice empty,
changes nothing. -/
theorem visit_idle (extra : Nat → Nat → Nat) (w : writer) (tbk : TimeBucketKey)
    (he : ∀ bucket, mapGet w.dataBuckets tbk = some bucket → bucket.events = [])
    (h0 : w.epoch.len = 0) : w.visit extra tbk = w := by
  cases hg : mapGet w.dataBuckets tbk with
  | none => unfold writer.visit; rw [hg]
  | some bucket => exact visit_noop extra w tbk bucket hg (he bucket hg) h0

theorem foldVisit_idle (extra : Nat → Nat → Nat) (order : List TimeBucketKey) (w : writer)
    (he : ∀ K bucket, mapGet w.dataBuckets K = some bucket → bucket.events = [])
    (h0 : w.epoch.len = 0) : order.foldl (writer.visit extra) w = w := by
  induction order with
  | nil => rfl
  | cons tbk order ih =>
    simp only [List.foldl_cons]
    rw [visit_idle extra w tbk (he tbk) h0]
    exact ih

/-- When `K` holds the only non-empty bucket, the loop over the buckets does
what the visit of `K` does. -/
theorem foldVisit_only (extra : Nat → Nat → Nat) (order : List TimeBucketKey) (w : writer)
    (K : TimeBucketKey) (bucket : Bucket) (hg : mapGet w.dataBuckets K = some bucket)
    (ho : ∀ K' bucket', K' ≠ K → mapGet w.dataBuckets K' = some bucket' → bucket'.events = [])
    (h0 : w.ScratchEmpty) (hK : K ∈ order) :
    order.foldl (writer.visit extra) w = w.visit extra K := by
  induction order with
  | nil => simp at hK
  | cons tbk order ih =>
    simp only [List.foldl_cons]
    by_cases hk : tbk = K
    · subst hk
      apply foldVisit_idle
      · intro K' bucket' hb
        by_cases hk' : K' = tbk
        · subst hk'
          rw [visit_same extra w K' bucket hg] at hb
          simp only [Option.some.injEq] at hb
          rw [← hb]
          exact emptied_events bucket
        · rw [visit_other extra w tbk K' hk'] at hb
          exact ho K' bucket' hk' hb
      · exact (visit_scratchEmpty extra w tbk h0).1
    · rw [visit_idle extra w tbk (fun b hb => ho tbk b hk hb) h0.1]
      have hK' : K ∈ order := by
        rcases List.mem_cons.mp hK with h | h
        · exact absurd h.symm hk
        · exact h
      exact ih hK'

theorem read_empty {α : Type} (h : Heap α) (s : Slice) (h0 : s.len = 0) : h.read s = [] := by
  simp [Heap.read, h0]

/-- The visit of a non-empty trade bucket, from empty scratch slices and an
empty column map, records the transposition of the bucket. -/
theorem visit_trades_columns (extra : Nat → Nat → Nat) (w : writer) (K : TimeBucketKey)
    (b : List trade) (hg : mapGet w.dataBuckets K = some (.trades b)) (hne : b ≠ [])
    (h0 : w.ScratchEmpty) (hs : w.Sep) (hc : w.csm = []) :
    (w.visit extra K).columnsOf K = tradeColumns b := by
  obtain ⟨r1, r2, r3, r4, -⟩ := foldTrade_reads extra b w hs
  obtain ⟨-, c2, -, -, -, -, c8, -⟩ := foldTrade_frame extra b w
  obtain ⟨e1, e2, -, -, e5, -, -, e8⟩ := h0
  rw [read_empty _ _ e1] at r1
  rw [read_empty _ _ e2] at r2
  rw [read_empty _ _ e5] at r3
  rw [read_empty _ _ e8] at r4
  have hb : 0 < b.length := List.length_pos.mpr hne
  have hlt : 0 < (b.foldl (writer.appendTrade extra) w).epoch.len := by omega
  unfold writer.visit
  rw [hg]
  simp only [writer.emitTrade, hlt, if_true, writer.columnsOf, AddColumn, c2, hc, List.nil_append,
    List.cons_append, List.filter_cons, decide_True, List.filter_nil, List.map_cons, List.map_nil,
    writer.column, tradeColumns, r1, r2, r3, r4]

theorem mapGet_mem {V : Type} (m : List (String × V)) (k : String) (v : V)
    (h : mapGet m k = some v) : (k, v) ∈ m := by
  induction m with
  | nil => simp [mapGet] at h
  | cons e m ih =>
    obtain ⟨k', v'⟩ := e
    by_cases hk : k' = k
    · simp only [mapGet, hk, if_true, Option.some.injEq] at h
      simp [hk, h]
    · simp only [mapGet, hk, if_false] at h
      simp [ih h]

theorem recv_ready (w w' : writer) (m : writePacket) (k : Bool) (hr : w.recv m = some w')
    (h : w.Ready k) : w'.Ready k := by
  unfold writer.recv at hr
  split at hr
  · split at hr
    · simp only [Option.some.injEq] at hr; subst hr; exact h
    · simp only [Option.some.injEq] at hr; subst hr; exact h
    · simp at hr
  · split at hr
    · simp only [Option.some.injEq] at hr; subst hr; exact h
    · simp only [Option.some.injEq] at hr; subst hr; exact h

/-- A packet for a key whose bucket is empty and of the kind of the packet
leaves a one-event bucket of that kind. -/
theorem recv_emptied (w : writer) (K : TimeBucketKey) (e : Data) (bucket : Bucket)
    (hg : mapGet w.dataBuckets K = some bucket.emptied) (hk : bucket.isQuote = e.isQuote) :
    ∃ w' bucket', w.recv ⟨K, e⟩ = some w' ∧ mapGet w'.dataBuckets K = some bucket' ∧
      bucket'.events.length = 1 ∧ bucket'.isQuote = e.isQuote := by
  unfold writer.recv
  simp only [hg]
  cases e with
  | ofQuote q =>
    cases bucket with
    | trades b => simp [Bucket.isQuote, Data.isQuote] at hk
    | quotes b =>
      exact ⟨_, .quotes ([] ++ [q]), rfl, mapGet_mapSet_same _ _ _, by simp [Bucket.events], rfl⟩
  | ofTrade t =>
    cases bucket with
    | quotes b => simp [Bucket.isQuote, Data.isQuote] at hk
    | trades b =>
      exact ⟨_, .trades ([] ++ [t]), rfl, mapGet_mapSet_same _ _ _, by simp [Bucket.events], rfl⟩

/-! ## Facts about the decoders -/

theorem int64_of_range (x : Int) (h1 : -2 ^ 63 ≤ x) (h2 : x < 2 ^ 63) : int64 x = x := by
  unfold int64
  omega

theorem int64_add_wrap (a b : Int) (h1 : -2 ^ 63 ≤ a + b) (h2 : a + b < 2 ^ 63) :
    int64 (int64 a + b) = a + b := by
  unfold int64
  omega

theorem int32_of_range (x : Int) (h1 : -2 ^ 31 ≤ x) (h2 : x < 2 ^ 31) : int32 x = x := by
  unfold int32
  omega

theorem tmod_bounds (n : Int) :
    (0 ≤ n → 0 ≤ n.tmod 1000000000 ∧ n.tmod 1000000000 < 1000000000) ∧
    (n < 0 → -1000000000 < n.tmod 1000000000 ∧ n.tmod 1000000000 ≤ 0) := by
  constructor
  · intro h
    exact ⟨Int.tmod_nonneg _ h, Int.tmod_lt_of_pos _ (by norm_num)⟩
  · intro h
    have h1 : (-n).tmod 1000000000 = -(n.tmod 1000000000) := by
      rw [Int.tmod_def, Int.tmod_def, Int.neg_tdiv]
      ring
    have h2 : 0 ≤ (-n).tmod 1000000000 := Int.tmod_nonneg _ (by omega)
    have h3 : (-n).tmod 1000000000 < 1000000000 := Int.tmod_lt_of_pos _ (by norm_num)
    omega

/-- The seconds and nanoseconds of `time.Unix(0, n)` for an `int64` value
`n`: floor division by a billion. -/
theorem timeUnix_spec (n : Int) (h1 : -2 ^ 63 ≤ n) (h2 : n < 2 ^ 63) :
    (timeUnix 0 n).sec * 1000000000 + (timeUnix 0 n).nsec = n ∧
      0 ≤ (timeUnix 0 n).nsec ∧ (timeUnix 0 n).nsec ≤ 999999999 := by
  have hd := Int.tdiv_add_tmod' n 1000000000
  obtain ⟨hp, hn⟩ := tmod_bounds n
  unfold timeUnix
  split
  · rename_i hc
    have e1 : int64 (n.tdiv 1000000000 * 1000000000) = n.tdiv 1000000000 * 1000000000 := by
      apply int64_of_range <;> by_cases h : 0 ≤ n
      · have := hp h; omega
      · have := hn (by omega); omega
      · have := hp h; omega
      · have := hn (by omega); omega
    have e2 : n - n.tdiv 1000000000 * 1000000000 = n.tmod 1000000000 := by omega
    have e3 : int64 (n.tmod 1000000000) = n.tmod 1000000000 := by
      apply int64_of_range <;> by_cases h : 0 ≤ n
      · have := hp h; omega
      · have := hn (by omega); omega
      · have := hp h; omega
      · have := hn (by omega); omega
    have e4 : int64 (0 + n.tdiv 1000000000) = n.tdiv 1000000000 := by
      rw [Int.zero_add]
      apply int64_of_range <;> by_cases h : 0 ≤ n
      · have := hp h; omega
      · have := hn (by omega); omega
      · have := hp h; omega
      · have := hn (by omega); omega
    simp only [e1, e2, e3, e4]
    split
    · rename_i hneg
      have hb : n < 0 := by
        by_contra hx
        have := hp (by omega)
        omega
      have := hn hb
      have e5 : int64 (n.tmod 1000000000 + 1000000000) = n.tmod 1000000000 + 1000000000 := by
        apply int64_of_range <;> omega
      have e6 : int32 (n.tmod 1000000000 + 1000000000) = n.tmod 1000000000 + 1000000000 := by
        apply int32_of_range <;> omega
      have e7 : int64 (n.tdiv 1000000000 - 1) = n.tdiv 1000000000 - 1 := by
        apply int64_of_range <;> omega
      simp only [e5, e6, e7]
      omega
    · rename_i hnn
      have hu : n.tmod 1000000000 < 1000000000 := by
        by_cases h : 0 ≤ n
        · exact (hp h).2
        · have := hn (by omega); omega
      have e6 : int32 (n.tmod 1000000000) = n.tmod 1000000000 := by
        apply int32_of_range <;> omega
      simp only [e6]
      omega
  · rename_i hc
    have e6 : int32 n = n := by
      apply int32_of_range <;> omega
    simp only [e6]
    omega

/-- The timestamp of lines 32 and 80 splits the total nanoseconds by floor
division into seconds and a nanosecond within the second. -/
theorem timestampOf_spec (t T : Int) (h1 : -2 ^ 63 ≤ 1000000 * t + T)
    (h2 : 1000000 * t + T < 2 ^ 63) :
    (timestampOf t T).Unix * 1000000000 + int32 (timestampOf t T).Nanosecond = 1000000 * t + T ∧
      0 ≤ int32 (timestampOf t T).Nanosecond ∧
      int32 (timestampOf t T).Nanosecond ≤ 999999999 := by
  have e : int64 (int64 (1000 * 1000 * t) + T) = 1000000 * t + T := by
    have : (1000 : Int) * 1000 * t = 1000000 * t := by ring
    rw [this]
    exact int64_add_wrap _ _ h1 h2
  unfold timestampOf Time.Unix Time.Nanosecond
  rw [e]
  obtain ⟨a, b, c⟩ := timeUnix_spec (1000000 * t + T) h1 h2
  have e6 : int32 (timeUnix 0 (1000000 * t + T)).nsec = (timeUnix 0 (1000000 * t + T)).nsec := by
    apply int32_of_range <;> omega
  rw [e6]
  exact ⟨a, b, c⟩

theorem Write_c {B : Type} (pkt : writePacket) (g : World B) : (Write pkt g).c = g.c ++ [pkt] := by
  unfold Write
  split <;> rfl

theorem Write_books {B : Type} (pkt : writePacket) (g : World B) :
    (Write pkt g).books = g.books ∧ (Write pkt g).orderBooks = g.orderBooks ∧
      (Write pkt g).nextBook = g.nextBook := by
  unfold Write
  split <;> exact ⟨rfl, rfl, rfl⟩

theorem getOrderBook_c {B : Type} (ops : OrderBookOps B) (symbol : String) (g : World B) :
    (getOrderBook ops symbol g).2.c = g.c := by
  unfold getOrderBook
  split <;> rfl

theorem getOrderBook_registered {B : Type} (ops : OrderBookOps B) (symbol : String)
    (g : World B) :
    mapGet (getOrderBook ops symbol g).2.orderBooks symbol = some (getOrderBook ops symbol g).1 := by
  unfold getOrderBook
  split
  · rename_i book h
    exact h
  · exact mapGet_mapSet_same _ _ _

/-- Applying a list of updates to the book at one address: that book takes
the updates in list order, and nothing else changes. -/
theorem foldl_onBook {B : Type} (f : B → Entry → B) (cvt : Float64 → Float32) (book : Nat)
    (l : List (Option Float64 × Option Int)) (g : World B) :
    (l.foldl (fun g value => g.onBook book (fun bk => f bk (entryOf cvt value))) g).books book =
        (l.map (entryOf cvt)).foldl f (g.books book) ∧
    (∀ a, a ≠ book →
      (l.foldl (fun g value => g.onBook book (fun bk => f bk (entryOf cvt value))) g).books a =
        g.books a) ∧
    (l.foldl (fun g value => g.onBook book (fun bk => f bk (entryOf cvt value))) g).c = g.c ∧
    (l.foldl (fun g value => g.onBook book (fun bk => f bk (entryOf cvt value))) g).orderBooks =
      g.orderBooks := by
  induction l generalizing g with
  | nil => simp
  | cons v l ih =>
    obtain ⟨h1, h2, h3, h4⟩ := ih (g.onBook book (fun bk => f bk (entryOf cvt v)))
    simp only [List.foldl_cons, List.map_cons]
    refine ⟨?_, ?_, ?_, ?_⟩
    · rw [h1]; simp [World.onBook]
    · intro a ha
      rw [h2 a ha]; simp [World.onBook, ha]
    · rw [h3]; rfl
    · rw [h4]; rfl

theorem onBook_c {B : Type} (g : World B) (book : Nat) (f : B → B) :
    (g.onBook book f).c = g.c := rfl

theorem onBook_orderBooks {B : Type} (g : World B) (book : Nat) (f : B → B) :
    (g.onBook book f).orderBooks = g.orderBooks := rfl

theorem onBook_books_same {B : Type} (g : World B) (book : Nat) (f : B → B) :
    (g.onBook book f).books book = f (g.books book) := by
  simp [World.onBook]

theorem onBook_books_other {B : Type} (g : World B) (book a : Nat) (f : B → B) (h : a ≠ book) :
    (g.onBook book f).books a = g.books a := by
  simp [World.onBook, h]

/-- The body of `BookEach` for a message with a symbol, step by step. -/
theorem BookEach_eq {B : Type} (ops : OrderBookOps B) (cvt : Float64 → Float32)
    (raw : RawMessage) (g : World B) (S : String) (hS : raw.S = some S) :
    BookEach ops cvt raw g =
      Write
        ⟨S ++ "/1Min/QUOTE", .ofQuote (quoteOf (timestampOf (raw.t.getD 0) (raw.T.getD 0))
          (ops.BBO ((raw.a.foldl (fun x value => x.onBook (getOrderBook ops S g).1
              (fun bk => ops.Ask bk (entryOf cvt value)))
            (raw.b.foldl (fun x value => x.onBook (getOrderBook ops S g).1
              (fun bk => ops.Bid bk (entryOf cvt value))) (getOrderBook ops S g).2)).books
            (getOrderBook ops S g).1)).1)⟩
        ((raw.a.foldl (fun x value => x.onBook (getOrderBook ops S g).1
              (fun bk => ops.Ask bk (entryOf cvt value)))
            (raw.b.foldl (fun x value => x.onBook (getOrderBook ops S g).1
              (fun bk => ops.Bid bk (entryOf cvt value))) (getOrderBook ops S g).2)).onBook
          (getOrderBook ops S g).1 (fun bk => (ops.BBO bk).2)) := by
  unfold BookEach
  simp only [hS]
  rfl

/-- What `BookEach` does for a message with a symbol: the book registered for
the symbol takes the bids, then the asks, then one `BBO` call; no other book
changes; one quote packet is sent. -/
theorem BookEach_spec {B : Type} (ops : OrderBookOps B) (cvt : Float64 → Float32)
    (raw : RawMessage) (g : World B) (S : String) (hS : raw.S = some S) :
    (BookEach ops cvt raw g).c = g.c ++
      [⟨S ++ "/1Min/QUOTE", .ofQuote (quoteOf (timestampOf (raw.t.getD 0) (raw.T.getD 0))
        (ops.BBO (applyDepth ops cvt raw
          ((getOrderBook ops S g).2.books (getOrderBook ops S g).1))).1)⟩] ∧
    (BookEach ops cvt raw g).books (getOrderBook ops S g).1 =
      (ops.BBO (applyDepth ops cvt raw
        ((getOrderBook ops S g).2.books (getOrderBook ops S g).1))).2 ∧
    (∀ a, a ≠ (getOrderBook ops S g).1 →
      (BookEach ops cvt raw g).books a = (getOrderBook ops S g).2.books a) ∧
    (BookEach ops cvt raw g).orderBooks = (getOrderBook ops S g).2.orderBooks := by
  obtain ⟨b1, b2, b3, b4⟩ := foldl_onBook ops.Bid cvt (getOrderBook ops S g).1 raw.b
    (getOrderBook ops S g).2
  obtain ⟨a1, a2, a3, a4⟩ := foldl_onBook ops.Ask cvt (getOrderBook ops S g).1 raw.a
    (raw.b.foldl (fun x value => x.onBook (getOrderBook ops S g).1
      (fun bk => ops.Bid bk (entryOf cvt value))) (getOrderBook ops S g).2)
  rw [BookEach_eq ops cvt raw g S hS]
  refine ⟨?_, ?_, ?_, ?_⟩
  · rw [Write_c, onBook_c, a3, b3, getOrderBook_c, a1, b1]
    rfl
  · rw [(Write_books _ _).1, onBook_books_same, a1, b1]
    rfl
  · intro a ha
    rw [(Write_books _ _).1, onBook_books_other _ _ _ _ ha, a2 a ha, b2 a ha]
  · rw [(Write_books _ _).2.1, onBook_orderBooks, a4, b4]

/-! ## Facts about sequences of calls -/

theorem getOrderBook_hit {B : Type} (ops : OrderBookOps B) (symbol : String) (g : World B)
    (a : Nat) (h : mapGet g.orderBooks symbol = some a) : getOrderBook ops symbol g = (a, g) := by
  unfold getOrderBook
  rw [h]

theorem mapSet_keys_new {V : Type} (m : List (String × V)) (k : String) (v : V)
    (h : mapGet m k = none) : (mapSet m k v).map Prod.fst = m.map Prod.fst ++ [k] := by
  induction m with
  | nil => simp [mapSet]
  | cons e m ih =>
    obtain ⟨k', v'⟩ := e
    by_cases hk : k' = k
    · simp [mapGet, hk] at h
    · simp only [mapGet, hk, if_false] at h
      simp [mapSet, hk, ih h]

theorem getOrderBook_miss {B : Type} (ops : OrderBookOps B) (symbol : String) (g : World B)
    (h : mapGet g.orderBooks symbol = none) :
    (getOrderBook ops symbol g).1 = g.nextBook ∧
    (getOrderBook ops symbol g).2.orderBooks = mapSet g.orderBooks symbol g.nextBook ∧
    (getOrderBook ops symbol g).2.books g.nextBook = ops.NewOrderBook ∧
    ∀ a, a ≠ g.nextBook → (getOrderBook ops symbol g).2.books a = g.books a := by
  unfold getOrderBook
  rw [h]
  refine ⟨rfl, rfl, by simp, ?_⟩
  intro a ha
  simp [ha]

/-- A call of `getOrderBook` keeps every entry of the registry. -/
theorem getOrderBook_keeps {B : Type} (ops : OrderBookOps B) (symbol : String) (g : World B)
    (s : String) (a : Nat) (h : mapGet g.orderBooks s = some a) :
    mapGet (getOrderBook ops symbol g).2.orderBooks s = some a := by
  cases hg : mapGet g.orderBooks symbol with
  | some b => rw [getOrderBook_hit ops symbol g b hg]; exact h
  | none =>
    rw [(getOrderBook_miss ops symbol g hg).2.1]
    have hne : s ≠ symbol := by
      intro e
      rw [e, hg] at h
      simp at h
    rw [mapGet_mapSet_other _ _ _ _ hne]
    exact h

theorem getOrderBookAll_keeps {B : Type} (ops : OrderBookOps B) (symbols : List String)
    (g : World B) (s : String) (a : Nat) (h : mapGet g.orderBooks s = some a) :
    mapGet (getOrderBookAll ops symbols g).2.orderBooks s = some a := by
  induction symbols generalizing g with
  | nil => exact h
  | cons symbol rest ih =>
    simp only [getOrderBookAll]
    exact ih _ (getOrderBook_keeps ops symbol g s a h)

/-- Every call of a sequence returns the book that the registry holds for its
symbol when the sequence is over. -/
theorem getOrderBookAll_result {B : Type} (ops : OrderBookOps B) (symbols : List String)
    (g : World B) (i : Nat) (s : String) (h : symbols[i]? = some s) :
    ∃ a, (getOrderBookAll ops symbols g).1[i]? = some a ∧
      mapGet (getOrderBookAll ops symbols g).2.orderBooks s = some a := by
  induction symbols generalizing g i with
  | nil => simp at h
  | cons symbol rest ih =>
    cases i with
    | zero =>
      simp only [List.getElem?_cons_zero, Option.some.injEq] at h
      subst h
      refine ⟨(getOrderBook ops symbol g).1, by simp [getOrderBookAll], ?_⟩
      simp only [getOrderBookAll]
      exact getOrderBookAll_keeps ops rest _ symbol _ (getOrderBook_registered ops symbol g)
    | succ i =>
      simp only [List.getElem?_cons_succ] at h
      obtain ⟨a, h1, h2⟩ := ih (getOrderBook ops symbol g).2 i h
      exact ⟨a, by simpa [getOrderBookAll] using h1, by simpa [getOrderBookAll] using h2⟩

theorem Write_started {B : Type} (pkt : writePacket) (g : World B) :
    (Write pkt g).onceDone = true ∧
    (Write pkt g).started = if g.onceDone then g.started else g.started + 1 := by
  unfold Write
  split
  · rename_i h
    exact ⟨h, rfl⟩
  · exact ⟨rfl, rfl⟩

theorem WriteAll_c {B : Type} (pkts : List writePacket) (g : World B) :
    (WriteAll pkts g).c = g.c ++ pkts := by
  induction pkts generalizing g with
  | nil => simp [WriteAll]
  | cons p rest ih =>
    have h := ih (Write p g)
    simp only [WriteAll, List.foldl_cons] at h ⊢
    rw [h, Write_c]
    simp

theorem WriteAll_started_done {B : Type} (pkts : List writePacket) (g : World B)
    (h : g.onceDone = true) :
    (WriteAll pkts g).started = g.started ∧ (WriteAll pkts g).onceDone = true := by
  induction pkts generalizing g with
  | nil => exact ⟨rfl, h⟩
  | cons p rest ih =>
    obtain ⟨h1, h2⟩ := Write_started p g
    have h3 := ih (Write p g) h1
    simp only [WriteAll, List.foldl_cons] at h3 ⊢
    rw [h3.1, h2, h]
    exact ⟨rfl, h3.2⟩

/-! ## Facts about the timing of the select -/

theorem selectLoop_arrivalsEvery (m : writePacket) (n : Nat) :
    ∀ start, selectLoop interval n start (arrivalsEvery 50 m start n) =
      (arrivalsEvery 50 m start n).map (fun e => (e.1, some e.2)) := by
  induction n with
  | zero => intro start; rfl
  | succ n ih =>
    intro start
    have h1 : start + 50 < start + interval := by unfold interval; omega
    have h2 : max start (start + 50) = start + 50 := by omega
    simp only [arrivalsEvery, selectLoop, h1, if_true, h2, List.map_cons, ih]

theorem selectLoop_arrivalsEvery_then (m : writePacket) (n : Nat) :
    ∀ start, flushTimes (selectLoop interval (n + 1) start (arrivalsEvery 50 m start n)) =
      [start + 50 * n + 100] := by
  induction n with
  | zero => intro start; simp [selectLoop, arrivalsEvery, flushTimes, interval]
  | succ n ih =>
    intro start
    have h1 : start + 50 < start + interval := by unfold interval; omega
    have h2 : max start (start + 50) = start + 50 := by omega
    have h3 := ih (start + 50)
    simp only [arrivalsEvery, selectLoop, h1, if_true, h2]
    simp only [flushTimes, List.filter_cons] at h3 ⊢
    simp only [Option.isNone_some, Bool.false_eq_true, if_false]
    rw [h3]
    congr 1
    omega

/-! ## Which keys a tick records -/

/-- A visit of a non-empty bucket records columns under its key. -/
theorem visit_csm_same (extra : Nat → Nat → Nat) (w : writer) (tbk : TimeBucketKey)
    (bucket : Bucket) (hg : mapGet w.dataBuckets tbk = some bucket) (hne : bucket.events ≠ []) :
    (w.visit extra tbk).csm.filter (fun e => e.1 = tbk) ≠ [] := by
  unfold writer.visit
  rw [hg]
  cases bucket with
  | quotes b =>
    obtain ⟨-, -, -, -, c6, -⟩ := foldQuote_frame extra b w
    have hb : 0 < b.length := by
      cases b with
      | nil => simp [Bucket.events] at hne
      | cons _ _ => simp
    have hlt : 0 < (b.foldl (writer.appendQuote extra) w).epoch.len := by omega
    simp [writer.emitQuote, hlt, AddColumn, List.filter_append]
  | trades b =>
    obtain ⟨-, -, -, -, -, -, c8, -⟩ := foldTrade_frame extra b w
    have hb : 0 < b.length := by
      cases b with
      | nil => simp [Bucket.events] at hne
      | cons _ _ => simp
    have hlt : 0 < (b.foldl (writer.appendTrade extra) w).epoch.len := by omega
    simp [writer.emitTrade, hlt, AddColumn, List.filter_append]

theorem visit_buffer_other (extra : Nat → Nat → Nat) (w : writer) (tbk K : TimeBucketKey)
    (hk : K ≠ tbk) : (w.visit extra tbk).buffer K = w.buffer K := by
  unfold writer.buffer
  rw [visit_other extra w tbk K hk]

theorem visit_buffer_same (extra : Nat → Nat → Nat) (w : writer) (tbk : TimeBucketKey) :
    (w.visit extra tbk).buffer tbk = [] := by
  cases hg : mapGet w.dataBuckets tbk with
  | none =>
    have : w.visit extra tbk = w := by unfold writer.visit; rw [hg]
    rw [this]
    simp [writer.buffer, hg]
  | some bucket =>
    simp [writer.buffer, visit_same extra w tbk bucket hg, emptied_events]

/-- From empty scratch slices, the loop over the buckets records columns for
a key exactly when it already had some or it visits the key with a non-empty
buffer. -/
theorem foldVisit_csm (extra : Nat → Nat → Nat) (order : List TimeBucketKey) (w : writer)
    (K : TimeBucketKey) (h0 : w.ScratchEmpty) :
    (order.foldl (writer.visit extra) w).csm.filter (fun e => e.1 = K) ≠ [] ↔
      (w.csm.filter (fun e => e.1 = K) ≠ [] ∨ (K ∈ order ∧ w.buffer K ≠ [])) := by
  induction order generalizing w with
  | nil => simp
  | cons tbk order ih =>
    simp only [List.foldl_cons]
    rw [ih _ (visit_scratchEmpty extra w tbk h0)]
    by_cases hk : K = tbk
    · subst hk
      rw [visit_buffer_same]
      by_cases hb : w.buffer K = []
      · have hidle : w.visit extra K = w := by
          apply visit_idle extra w K _ h0.1
          intro bucket hg
          simpa [writer.buffer, hg] using hb
        rw [hidle]
        simp [hb]
      · have hcs : (w.visit extra K).csm.filter (fun e => e.1 = K) ≠ [] := by
          cases hg : mapGet w.dataBuckets K with
          | none => simp [writer.buffer, hg] at hb
          | some bucket =>
            apply visit_csm_same extra w K bucket hg
            simpa [writer.buffer, hg] using hb
        simp [hcs, hb]
    · rw [visit_csm_other extra w tbk K hk, visit_buffer_other extra w tbk K hk]
      simp [hk]

theorem columnsOf_ne_nil (w : writer) (K : TimeBucketKey) :
    w.columnsOf K ≠ [] ↔ w.csm.filter (fun e => e.1 = K) ≠ [] := by
  unfold writer.columnsOf
  simp

/-- A tick whose range loop covers the keys leaves every bucket empty. -/
theorem tick_emptied (extra : Nat → Nat → Nat) (w : writer) (order : List TimeBucketKey)
    (hcov : ∀ k ∈ w.dataBuckets.map Prod.fst, k ∈ order) (K : TimeBucketKey) (bucket' : Bucket)
    (hg' : mapGet (w.tick extra order).dataBuckets K = some bucket') : bucket'.events = [] := by
  obtain ⟨bucket, hg, -⟩ := tick_kind extra order w K bucket' hg'
  have hK : K ∈ order := hcov K (mapGet_mem_keys _ _ _ hg)
  have h := foldVisit_bucket extra order { w with csm := [] } K bucket hg
  simp only [hK, if_true] at h
  have h2 : mapGet (w.tick extra order).dataBuckets K = some bucket.emptied := h
  rw [h2] at hg'
  simp only [Option.some.injEq] at hg'
  rw [← hg']
  exact emptied_events bucket

theorem tick_scratchEmpty (extra : Nat → Nat → Nat) (w : writer) (order : List TimeBucketKey)
    (h0 : w.ScratchEmpty) : (w.tick extra order).ScratchEmpty := by
  unfold writer.tick
  have h : ∀ (l : List TimeBucketKey) (x : writer), x.ScratchEmpty →
      (l.foldl (writer.visit extra) x).ScratchEmpty := by
    intro l
    induction l with
    | nil => intro x hx; exact hx
    | cons tbk l ih => intro x hx; exact ih _ (visit_scratchEmpty extra x tbk hx)
  exact h order _ h0

/-! ## The registry along a history of calls -/

theorem getOrderBook_nextBook_miss {B : Type} (ops : OrderBookOps B) (symbol : String)
    (g : World B) (h : mapGet g.orderBooks symbol = none) :
    (getOrderBook ops symbol g).2.nextBook = g.nextBook + 1 := by
  unfold getOrderBook
  rw [h]

theorem init_registryOK {B : Type} (ops : OrderBookOps B) : (World.init ops).RegistryOK := by
  constructor
  · intro s a h
    simp [World.init, mapGet] at h
  · intro s s' a h
    simp [World.init, mapGet] at h

/-- A call of `getOrderBook` keeps the registry sound: a new book gets the
next address, which no symbol holds, and the next address moves on. -/
theorem getOrderBook_registryOK {B : Type} (ops : OrderBookOps B) (symbol : String)
    (g : World B) (h : g.RegistryOK) : (getOrderBook ops symbol g).2.RegistryOK := by
  cases hg : mapGet g.orderBooks symbol with
  | some b => rw [getOrderBook_hit ops symbol g b hg]; exact h
  | none =>
    obtain ⟨h1, h2⟩ := h
    have hr := (getOrderBook_miss ops symbol g hg).2.1
    have hn := getOrderBook_nextBook_miss ops symbol g hg
    constructor
    · intro s a hs
      rw [hr] at hs
      rw [hn]
      by_cases e : s = symbol
      · subst e
        rw [mapGet_mapSet_same] at hs
        simp only [Option.some.injEq] at hs
        omega
      · rw [mapGet_mapSet_other _ _ _ _ e] at hs
        have := h1 s a hs
        omega
    · intro s s' a hs hs'
      rw [hr] at hs hs'
      by_cases e : s = symbol
      · by_cases e' : s' = symbol
        · rw [e, e']
        · subst e
          rw [mapGet_mapSet_same] at hs
          rw [mapGet_mapSet_other _ _ _ _ e'] at hs'
          simp only [Option.some.injEq] at hs
          have := h1 s' a hs'
          omega
      · by_cases e' : s' = symbol
        · subst e'
          rw [mapGet_mapSet_same] at hs'
          rw [mapGet_mapSet_other _ _ _ _ e] at hs
          simp only [Option.some.injEq] at hs'
          have := h1 s a hs
          omega
        · rw [mapGet_mapSet_other _ _ _ _ e] at hs
          rw [mapGet_mapSet_other _ _ _ _ e'] at hs'
          exact h2 s s' a hs hs'

/-- A call of `getOrderBook` changes no book below the next address, and
does not move the next address back. -/
theorem getOrderBook_books_below {B : Type} (ops : OrderBookOps B) (symbol : String)
    (g : World B) :
    g.nextBook ≤ (getOrderBook ops symbol g).2.nextBook ∧
    ∀ a, a < g.nextBook → (getOrderBook ops symbol g).2.books a = g.books a := by
  cases hg : mapGet g.orderBooks symbol with
  | some b =>
    rw [getOrderBook_hit ops symbol g b hg]
    exact ⟨Nat.le_refl _, fun _ _ => rfl⟩
  | none =>
    refine ⟨by rw [getOrderBook_nextBook_miss ops symbol g hg]; omega, ?_⟩
    intro a ha
    exact (getOrderBook_miss ops symbol g hg).2.2.2 a (by omega)

theorem getOrderBookAll_registryOK {B : Type} (ops : OrderBookOps B) (symbols : List String)
    (g : World B) (h : g.RegistryOK) : (getOrderBookAll ops symbols g).2.RegistryOK := by
  induction symbols generalizing g with
  | nil => exact h
  | cons symbol rest ih =>
    simp only [getOrderBookAll]
    exact ih _ (getOrderBook_registryOK ops symbol g h)

theorem getOrderBookAll_books_below {B : Type} (ops : OrderBookOps B) (symbols : List String)
    (g : World B) :
    g.nextBook ≤ (getOrderBookAll ops symbols g).2.nextBook ∧
    ∀ a, a < g.nextBook → (getOrderBookAll ops symbols g).2.books a = g.books a := by
  induction symbols generalizing g with
  | nil => exact ⟨Nat.le_refl _, fun _ _ => rfl⟩
  | cons symbol rest ih =>
    obtain ⟨h1, h2⟩ := getOrderBook_books_below ops symbol g
    obtain ⟨h3, h4⟩ := ih (getOrderBook ops symbol g).2
    simp only [getOrderBookAll]
    refine ⟨Nat.le_trans h1 h3, ?_⟩
    intro a ha
    rw [h4 a (by omega), h2 a ha]

theorem foldl_onBook_nextBook {B : Type} (f : B → Entry → B) (cvt : Float64 → Float32)
    (book : Nat) (l : List (Option Float64 × Option Int)) (g : World B) :
    (l.foldl (fun x value => x.onBook book (fun bk => f bk (entryOf cvt value))) g).nextBook =
      g.nextBook := by
  induction l generalizing g with
  | nil => rfl
  | cons v l ih =>
    simp only [List.foldl_cons]
    rw [ih]
    rfl

theorem TradeEach_registry {B : Type} (cvt : Float64 → Float32) (raw : RawMessage)
    (g : World B) :
    (TradeEach cvt raw g).orderBooks = g.orderBooks ∧
    (TradeEach cvt raw g).nextBook = g.nextBook := by
  unfold TradeEach
  split
  · exact ⟨rfl, rfl⟩
  · simp only
    split
    · exact ⟨rfl, rfl⟩
    · exact ⟨(Write_books _ g).2.1, (Write_books _ g).2.2⟩

theorem BookEach_registry {B : Type} (ops : OrderBookOps B) (cvt : Float64 → Float32)
    (raw : RawMessage) (g : World B) (S : String) (hS : raw.S = some S) :
    (BookEach ops cvt raw g).orderBooks = (getOrderBook ops S g).2.orderBooks ∧
    (BookEach ops cvt raw g).nextBook = (getOrderBook ops S g).2.nextBook := by
  refine ⟨(BookEach_spec ops cvt raw g S hS).2.2.2, ?_⟩
  rw [BookEach_eq ops cvt raw g S hS, (Write_books _ _).2.2]
  have e : ∀ (x : World B) (book : Nat) (f : B → B), (x.onBook book f).nextBook = x.nextBook :=
    fun _ _ _ => rfl
  rw [e, foldl_onBook_nextBook, foldl_onBook_nextBook]

theorem registryOK_congr {B : Type} (g g' : World B) (h1 : g'.orderBooks = g.orderBooks)
    (h2 : g'.nextBook = g.nextBook) (h : g.RegistryOK) : g'.RegistryOK := by
  unfold World.RegistryOK at *
  rw [h1, h2]
  exact h

/-- Every call keeps the registry sound. -/
theorem call_registryOK {B : Type} (ops : OrderBookOps B) (cvt : Float64 → Float32)
    (g : World B) (c : Call) (h : g.RegistryOK) : (g.call ops cvt c).RegistryOK := by
  cases c with
  | getOrderBook symbol => exact getOrderBook_registryOK ops symbol g h
  | TradeEach raw =>
    obtain ⟨h1, h2⟩ := TradeEach_registry cvt raw g
    exact registryOK_congr g _ h1 h2 h
  | BookEach raw =>
    cases hS : raw.S with
    | none =>
      have : BookEach ops cvt raw g = g := by
        unfold BookEach
        simp only [hS]
      simp only [World.call, this]
      exact h
    | some S =>
      obtain ⟨h1, h2⟩ := BookEach_registry ops cvt raw g S hS
      exact registryOK_congr _ _ h1 h2 (getOrderBook_registryOK ops S g h)
  | Write pkt =>
    exact registryOK_congr g _ (Write_books pkt g).2.1 (Write_books pkt g).2.2 h

/-- The registry is sound in every state the package reaches from its
start. -/
theorem calls_registryOK {B : Type} (ops : OrderBookOps B) (cvt : Float64 → Float32)
    (history : List Call) : (World.calls ops cvt (World.init ops) history).RegistryOK := by
  have h : ∀ (l : List Call) (g : World B), g.RegistryOK → (World.calls ops cvt g l).RegistryOK := by
    intro l
    induction l with
    | nil => intro g hg; exact hg
    | cons c l ih =>
      intro g hg
      exact ih _ (call_registryOK ops cvt g c hg)
  exact h history _ (init_registryOK ops)

/-! ## The claims -/

/-- C1 (the code departs from the claim): what a tick flushes for a key is
what the column map holds for it when the loop over the buckets is over.
With one trade `t1` received under AAPL and one trade `t2` under MSFT (each
key carrying a single event kind), a tick empties both buffers and leaves the
column map with the row of one trade under both keys: visiting AAPL first,
`t2` is recorded twice and `t1` is in no column and no buffer; visiting MSFT
first, it is `t1` twice and `t2` lost. -/
theorem C1_event_lost_and_repeated (extra : Nat → Nat → Nat) (t1 t2 : trade) :
    SingleKind
      [.packet ⟨"AAPL/1Min/TRADE", .ofTrade t1⟩, .packet ⟨"MSFT/1Min/TRADE", .ofTrade t2⟩,
       .timer ["AAPL/1Min/TRADE", "MSFT/1Min/TRADE"]] ∧
    received
      [.packet ⟨"AAPL/1Min/TRADE", .ofTrade t1⟩, .packet ⟨"MSFT/1Min/TRADE", .ofTrade t2⟩,
       .timer ["AAPL/1Min/TRADE", "MSFT/1Min/TRADE"]] "AAPL/1Min/TRADE" = [.ofTrade t1] ∧
    received
      [.packet ⟨"AAPL/1Min/TRADE", .ofTrade t1⟩, .packet ⟨"MSFT/1Min/TRADE", .ofTrade t2⟩,
       .timer ["AAPL/1Min/TRADE", "MSFT/1Min/TRADE"]] "MSFT/1Min/TRADE" = [.ofTrade t2] ∧
    (writer.write extra writer.init
        [.packet ⟨"AAPL/1Min/TRADE", .ofTrade t1⟩, .packet ⟨"MSFT/1Min/TRADE", .ofTrade t2⟩,
         .timer ["AAPL/1Min/TRADE", "MSFT/1Min/TRADE"]]).map
      (fun w => (w.buffer "AAPL/1Min/TRADE", w.buffer "MSFT/1Min/TRADE",
        w.columnsOf "AAPL/1Min/TRADE", w.columnsOf "MSFT/1Min/TRADE")) =
      some ([], [], tradeColumns [t2], tradeColumns [t2]) ∧
    (writer.write extra writer.init
        [.packet ⟨"AAPL/1Min/TRADE", .ofTrade t1⟩, .packet ⟨"MSFT/1Min/TRADE", .ofTrade t2⟩,
         .timer ["MSFT/1Min/TRADE", "AAPL/1Min/TRADE"]]).map
      (fun w => (w.buffer "AAPL/1Min/TRADE", w.buffer "MSFT/1Min/TRADE",
        w.columnsOf "AAPL/1Min/TRADE", w.columnsOf "MSFT/1Min/TRADE")) =
      some ([], [], tradeColumns [t1], tradeColumns [t1]) := by
  refine ⟨?_, ?_, ?_, ?_, ?_⟩
  · intro m hm m' hm' _
    simp only [packets, List.filterMap_cons, List.filterMap_nil, List.mem_cons,
      List.mem_singleton, List.not_mem_nil, or_false] at hm hm'
    rcases hm with rfl | rfl <;> rcases hm' with rfl | rfl <;> rfl
  · simp [received]
  · simp [received]
  · simp [writer.write, writer.step, writer.recv, writer.tick, writer.visit, writer.init, mapGet,
      mapSet, writer.emitTrade, writer.appendTrade, writer.pushEpoch, writer.pushNanos,
      writer.pushPx, writer.pushSz, goAppend, Slice.nil, writer.buffer, Bucket.events,
      Slice.trim, Heap.empty, AddColumn, writer.columnsOf, writer.column, Heap.read,
      List.range_succ, tradeColumns]
  · simp [writer.write, writer.step, writer.recv, writer.tick, writer.visit, writer.init, mapGet,
      mapSet, writer.emitTrade, writer.appendTrade, writer.pushEpoch, writer.pushNanos,
      writer.pushPx, writer.pushSz, goAppend, Slice.nil, writer.buffer, Bucket.events,
      Slice.trim, Heap.empty, AddColumn, writer.columnsOf, writer.column, Heap.read,
      List.range_succ, tradeColumns]

/-- C2 (the code departs from the claim): once a quote buffer has been
flushed, `askPx` shares the backing array of `bidPx` (line 225), so the next
quote flush for the key records the ask price in the BidPrice column: after
a quote `q1`, a tick, a quote `q2` and a second tick, BidPrice is
`[q2.askPx]`, not `[q2.bidPx]`. -/
theorem C2_bid_price_holds_ask (extra : Nat → Nat → Nat) (K : TimeBucketKey) (q1 q2 : quote) :
    (writer.write extra writer.init
        [.packet ⟨K, .ofQuote q1⟩, .timer [K], .packet ⟨K, .ofQuote q2⟩, .timer [K]]).map
      (fun w => w.columnsOf K) =
    some [("Epoch", .int64s [q2.epoch]), ("Nanoseconds", .int32s [q2.nanos]),
      ("BidPrice", .float32s [q2.askPx]), ("AskPrice", .float32s [q2.askPx]),
      ("BidSize", .int32s [q2.bidSz]), ("AskSize", .int32s [q2.askSz])] := by
  simp [writer.write, writer.step, writer.recv, writer.tick, writer.visit, writer.init, mapGet,
    mapSet, writer.emitQuote, writer.appendQuote, writer.pushEpoch, writer.pushNanos,
    writer.pushBidPx, writer.pushAskPx, writer.pushBidSz, writer.pushAskSz, goAppend, Slice.nil,
    Slice.trim, Heap.empty, AddColumn, writer.columnsOf, writer.column, Heap.read, List.range_succ]

/-- C3: the trade flush is a faithful transposition.  In every state the loop
reaches from the start, a tick that visits `K`, whose trade buffer `b` is the
only non-empty one, records for `K` exactly the columns Epoch, Nanoseconds,
Price, Size, each of the length of `b`, the i-th entries being the epoch,
nanos, px and sz of the i-th trade of `b`. -/
theorem C3_trade_flush_transposes (extra : Nat → Nat → Nat) (steps : List Step) (w : writer)
    (order : List TimeBucketKey) (K : TimeBucketKey) (b : List trade)
    (hreach : writer.write extra writer.init steps = some w)
    (hK : mapGet w.dataBuckets K = some (.trades b)) (hne : b ≠ [])
    (ho : ∀ e ∈ w.dataBuckets, e.1 ≠ K → e.2.events = [])
    (hord : K ∈ order) :
    (w.tick extra order).columnsOf K = tradeColumns b ∧
      (w.tick extra order).columnLengths K =
        [("Epoch", b.length), ("Nanoseconds", b.length), ("Price", b.length),
          ("Size", b.length)] := by
  obtain ⟨h0, hs⟩ := write_inv extra steps writer.init w hreach init_inv
  have hcols : (w.tick extra order).columnsOf K = tradeColumns b := by
    unfold writer.tick
    rw [foldVisit_only extra order { w with csm := [] } K (.trades b) hK
      (fun K' bucket' hk hb => ho (K', bucket') (mapGet_mem _ _ _ hb) hk) h0 hord]
    exact visit_trades_columns extra { w with csm := [] } K b hK hne h0 hs rfl
  refine ⟨hcols, ?_⟩
  unfold writer.columnLengths
  rw [hcols]
  simp [tradeColumns, ColumnData.length]

theorem C3_trade_flush_transposes_witness :
    writer.write (fun _ _ => 0) writer.init sampleSchedule = some sampleState ∧
    mapGet sampleState.dataBuckets "AAPL/1Min/TRADE" = some (.trades [sampleTrade2]) ∧
    [sampleTrade2] ≠ [] ∧
    (∀ e ∈ sampleState.dataBuckets, e.1 ≠ "AAPL/1Min/TRADE" → e.2.events = []) ∧
    "AAPL/1Min/TRADE" ∈ ["AAPL/1Min/TRADE", "MSFT/1Min/QUOTE"] ∧
    (sampleState.tick (fun _ _ => 0) ["AAPL/1Min/TRADE", "MSFT/1Min/QUOTE"]).columnsOf
        "AAPL/1Min/TRADE" = tradeColumns [sampleTrade2] :=
  ⟨rfl, rfl, by decide, by decide, by decide,
    (C3_trade_flush_transposes (fun _ _ => 0) sampleSchedule sampleState
      ["AAPL/1Min/TRADE", "MSFT/1Min/QUOTE"] "AAPL/1Min/TRADE" [sampleTrade2] rfl rfl
      (by decide) (by decide) (by decide)).1⟩

/-- C4 (the code departs from the claim): the scratch arrays are trimmed and
reused while the column map still refers to them, so within one tick the
columns recorded for the key visited first are overwritten with the rows of
the key visited next.  With one trade `t1` under AAPL and one trade `t2`
under MSFT, whichever key the range loop visits first ends the tick with the
other key's row in its columns. -/
theorem C4_columns_overwritten (extra : Nat → Nat → Nat) (t1 t2 : trade) :
    ((writer.write extra writer.init
        [.packet ⟨"AAPL/1Min/TRADE", .ofTrade t1⟩, .packet ⟨"MSFT/1Min/TRADE", .ofTrade t2⟩,
         .timer ["AAPL/1Min/TRADE", "MSFT/1Min/TRADE"]]).map
      (fun w => (w.buffer "AAPL/1Min/TRADE", w.columnsOf "AAPL/1Min/TRADE")) =
      some ([], tradeColumns [t2])) ∧
    ((writer.write extra writer.init
        [.packet ⟨"AAPL/1Min/TRADE", .ofTrade t1⟩, .packet ⟨"MSFT/1Min/TRADE", .ofTrade t2⟩,
         .timer ["MSFT/1Min/TRADE", "AAPL/1Min/TRADE"]]).map
      (fun w => (w.buffer "MSFT/1Min/TRADE", w.columnsOf "MSFT/1Min/TRADE")) =
      some ([], tradeColumns [t1])) := by
  constructor <;>
  simp [writer.write, writer.step, writer.recv, writer.tick, writer.visit, writer.init, mapGet,
    mapSet, writer.emitTrade, writer.appendTrade, writer.pushEpoch, writer.pushNanos,
    writer.pushPx, writer.pushSz, goAppend, Slice.nil, writer.buffer, Bucket.events,
    Slice.trim, Heap.empty, AddColumn, writer.columnsOf, writer.column, Heap.read,
    List.range_succ, tradeColumns]

/-- C5: a flush empties but keeps the buffers.  A timer tick whose range loop
covers the keys leaves the keys of `dataBuckets` as they are, and every
bucket empty and of the kind it had.  Consequently, for a key `K` that the
tick flushed (its buffer was not empty), one further packet for `K` of the
kind of its bucket is accepted, and the next tick that visits `K` records for
`K` the columns of that kind, each of length exactly 1. -/
theorem C5_flush_empties_keeps (extra : Nat → Nat → Nat) (w : writer)
    (order : List TimeBucketKey) (hcov : ∀ k ∈ w.dataBuckets.map Prod.fst, k ∈ order) :
    (w.tick extra order).dataBuckets.map Prod.fst = w.dataBuckets.map Prod.fst ∧
    (∀ K bucket', mapGet (w.tick extra order).dataBuckets K = some bucket' →
      bucket'.events.length = 0 ∧
        ∃ bucket, mapGet w.dataBuckets K = some bucket ∧ bucket'.isQuote = bucket.isQuote) ∧
    (∀ K bucket e order2, mapGet w.dataBuckets K = some bucket → bucket.events ≠ [] →
      bucket.isQuote = e.isQuote → K ∈ order2 →
      ∃ w2, (w.tick extra order).recv ⟨K, e⟩ = some w2 ∧
        (w2.tick extra order2).columnLengths K =
          (columnNames e.isQuote).map (fun n => (n, 1))) := by
  have hb : ∀ K bucket, mapGet w.dataBuckets K = some bucket →
      mapGet (w.tick extra order).dataBuckets K = some bucket.emptied := by
    intro K bucket hg
    have hK : K ∈ order := hcov K (mapGet_mem_keys _ _ _ hg)
    have h := foldVisit_bucket extra order { w with csm := [] } K bucket hg
    simp only [hK, if_true] at h
    exact h
  refine ⟨foldVisit_keys extra order { w with csm := [] }, ?_, ?_⟩
  · intro K bucket' hg'
    obtain ⟨bucket, hg, hq⟩ := tick_kind extra order w K bucket' hg'
    rw [hb K bucket hg] at hg'
    simp only [Option.some.injEq] at hg'
    subst hg'
    exact ⟨by simp [emptied_events], bucket, hg, emptied_isQuote bucket⟩
  · intro K bucket e order2 hg hne hk hK2
    have hK : K ∈ order := hcov K (mapGet_mem_keys _ _ _ hg)
    have hr : (w.tick extra order).Ready bucket.isQuote :=
      foldVisit_ready extra order { w with csm := [] } K bucket hg hne hK
    obtain ⟨w2, bucket2, hw2, hg2, hl2, hq2⟩ :=
      recv_emptied (w.tick extra order) K e bucket (hb K bucket hg) hk
    refine ⟨w2, hw2, ?_⟩
    have hr2 : w2.Ready bucket2.isQuote := by
      rw [hq2, ← hk]
      exact recv_ready _ _ _ _ hw2 hr
    have h := foldVisit_single extra order2 { w2 with csm := [] } K bucket2 hg2 hl2 hr2 hK2
    unfold writer.tick
    rw [h, hq2]
    simp [columnLengths_eq]

theorem C5_flush_empties_keeps_witness :
    (∀ k ∈ sampleState.dataBuckets.map Prod.fst, k ∈ ["MSFT/1Min/QUOTE", "AAPL/1Min/TRADE"]) ∧
    (sampleState.tick (fun _ _ => 0) ["MSFT/1Min/QUOTE", "AAPL/1Min/TRADE"]).dataBuckets.map
        Prod.fst = sampleState.dataBuckets.map Prod.fst ∧
    ∃ w2, (sampleState.tick (fun _ _ => 0) ["MSFT/1Min/QUOTE", "AAPL/1Min/TRADE"]).recv
        ⟨"AAPL/1Min/TRADE", .ofTrade sampleTrade1⟩ = some w2 ∧
      (w2.tick (fun _ _ => 0) ["AAPL/1Min/TRADE", "MSFT/1Min/QUOTE"]).columnLengths
          "AAPL/1Min/TRADE" =
        (columnNames (Data.ofTrade sampleTrade1).isQuote).map (fun n => (n, 1)) :=
  ⟨by decide,
    (C5_flush_empties_keeps (fun _ _ => 0) sampleState ["MSFT/1Min/QUOTE", "AAPL/1Min/TRADE"]
      (by decide)).1,
    (C5_flush_empties_keeps (fun _ _ => 0) sampleState ["MSFT/1Min/QUOTE", "AAPL/1Min/TRADE"]
      (by decide)).2.2 "AAPL/1Min/TRADE" (.trades [sampleTrade2]) (.ofTrade sampleTrade1)
      ["AAPL/1Min/TRADE", "MSFT/1Min/QUOTE"] rfl (by decide) rfl (by decide)⟩

/-- C6: append postcondition and frame.  A packet `(K, e)` for a key that is
absent or holds a bucket of the kind of `e` is accepted; afterwards `K` holds
a bucket of that kind whose content is the previous content (empty if `K`
was absent) followed by `e`, and the bucket of every other key is as
before. -/
theorem C6_append_and_frame (w : writer) (K : TimeBucketKey) (e : Data)
    (h : ∀ bucket, mapGet w.dataBuckets K = some bucket → bucket.isQuote = e.isQuote) :
    ∃ w', w.recv ⟨K, e⟩ = some w' ∧
      (∃ bucket', mapGet w'.dataBuckets K = some bucket' ∧ bucket'.isQuote = e.isQuote ∧
        bucket'.events = w.buffer K ++ [e]) ∧
      ∀ K', K' ≠ K → mapGet w'.dataBuckets K' = mapGet w.dataBuckets K' := by
  obtain ⟨w', hw, hb, hk, ho⟩ := recv_spec w K e h
  refine ⟨w', hw, ?_, ho⟩
  cases hg : mapGet w'.dataBuckets K with
  | none =>
    simp [writer.buffer, hg] at hb
  | some bucket' =>
    refine ⟨bucket', rfl, hk bucket' hg, ?_⟩
    rw [← hb]
    simp [writer.buffer, hg]

theorem C6_append_and_frame_witness :
    (∀ bucket, mapGet sampleState.dataBuckets "AAPL/1Min/TRADE" = some bucket →
      bucket.isQuote = (Data.ofTrade sampleTrade1).isQuote) ∧
    ∃ w', sampleState.recv ⟨"AAPL/1Min/TRADE", .ofTrade sampleTrade1⟩ = some w' ∧
      (∃ bucket', mapGet w'.dataBuckets "AAPL/1Min/TRADE" = some bucket' ∧
        bucket'.isQuote = (Data.ofTrade sampleTrade1).isQuote ∧
        bucket'.events = sampleState.buffer "AAPL/1Min/TRADE" ++ [.ofTrade sampleTrade1]) ∧
      ∀ K', K' ≠ "AAPL/1Min/TRADE" →
        mapGet w'.dataBuckets K' = mapGet sampleState.dataBuckets K' :=
  have h : ∀ bucket, mapGet sampleState.dataBuckets "AAPL/1Min/TRADE" = some bucket →
      bucket.isQuote = (Data.ofTrade sampleTrade1).isQuote := by
    intro bucket hb
    have h1 : mapGet sampleState.dataBuckets "AAPL/1Min/TRADE" = some (.trades [sampleTrade2]) :=
      rfl
    rw [h1] at hb
    simp only [Option.some.injEq] at hb
    subst hb
    rfl
  ⟨h, C6_append_and_frame sampleState "AAPL/1Min/TRADE" (.ofTrade sampleTrade1) h⟩

/-- C7: trade validation in `TradeEach`.  For a message with symbol `S`, no
packet is submitted when the decoded price is `<= 0` or the decoded size is
`<= 0` (a missing field decodes as 0), and otherwise exactly one packet is
submitted, with key `S + "/1Min/TRADE"` and a trade as payload. -/
theorem C7_trade_validation {B : Type} (cvt : Float64 → Float32) (raw : RawMessage)
    (g : World B) (S : String) (hS : raw.S = some S) :
    (((raw.p.getD Float64.zero).leZero = true ∨ raw.s.getD 0 ≤ 0) →
      (TradeEach cvt raw g).c = g.c) ∧
    (¬ ((raw.p.getD Float64.zero).leZero = true ∨ raw.s.getD 0 ≤ 0) →
      ∃ t, (TradeEach cvt raw g).c = g.c ++ [⟨S ++ "/1Min/TRADE", .ofTrade t⟩]) ∧
    (raw.p = none ∨ raw.s = none → (TradeEach cvt raw g).c = g.c) := by
  have key : ((raw.p.getD Float64.zero).leZero = true ∨ raw.s.getD 0 ≤ 0) →
      (TradeEach cvt raw g).c = g.c := by
    intro h
    unfold TradeEach
    simp only [hS]
    rw [if_pos]
    simpa using h
  refine ⟨key, ?_, ?_⟩
  · intro h
    unfold TradeEach
    simp only [hS]
    rw [if_neg]
    · exact ⟨_, Write_c _ g⟩
    · simpa using h
  · intro h
    apply key
    rcases h with h | h
    · left; rw [h]; rfl
    · right; rw [h]; simp

theorem C7_trade_validation_witness :
    sampleTradeMessage.S = some "AAPL" ∧
    ¬ ((sampleTradeMessage.p.getD Float64.zero).leZero = true ∨ sampleTradeMessage.s.getD 0 ≤ 0) ∧
    ∃ t, (TradeEach sampleCvt sampleTradeMessage (World.init sampleOps)).c =
      (World.init sampleOps).c ++ [⟨"AAPL" ++ "/1Min/TRADE", .ofTrade t⟩] :=
  ⟨rfl, by decide,
    (C7_trade_validation sampleCvt sampleTradeMessage (World.init sampleOps) "AAPL" rfl).2.1
      (by decide)⟩

/-- C8: timestamp decomposition.  When `1000000*t + T` fits an `int64`, the
event that `TradeEach` submits (for a valid trade) and the event that
`BookEach` submits have `epoch * 1000000000 + nanos = 1000000*t + T` with
`0 <= nanos <= 999999999`; for `t = 1700000000000` and `T = 500000` the epoch
is `1700000000` and the nanos are `500000`. -/
theorem C8_timestamp_decomposition {B : Type} (ops : OrderBookOps B) (cvt : Float64 → Float32)
    (raw : RawMessage) (g : World B) (S : String) (hS : raw.S = some S)
    (h1 : -2 ^ 63 ≤ 1000000 * raw.t.getD 0 + raw.T.getD 0)
    (h2 : 1000000 * raw.t.getD 0 + raw.T.getD 0 < 2 ^ 63) :
    (¬ ((raw.p.getD Float64.zero).leZero = true ∨ raw.s.getD 0 ≤ 0) →
      ∃ tr, (TradeEach cvt raw g).c = g.c ++ [⟨S ++ "/1Min/TRADE", .ofTrade tr⟩] ∧
        tr.epoch * 1000000000 + tr.nanos = 1000000 * raw.t.getD 0 + raw.T.getD 0 ∧
        0 ≤ tr.nanos ∧ tr.nanos ≤ 999999999) ∧
    (∃ q, (BookEach ops cvt raw g).c = g.c ++ [⟨S ++ "/1Min/QUOTE", .ofQuote q⟩] ∧
        q.epoch * 1000000000 + q.nanos = 1000000 * raw.t.getD 0 + raw.T.getD 0 ∧
        0 ≤ q.nanos ∧ q.nanos ≤ 999999999) ∧
    ((timestampOf 1700000000000 500000).Unix = 1700000000 ∧
      int32 (timestampOf 1700000000000 500000).Nanosecond = 500000) := by
  have hts := timestampOf_spec (raw.t.getD 0) (raw.T.getD 0) h1 h2
  refine ⟨?_, ?_, by decide⟩
  · intro h
    refine ⟨{ epoch := (timestampOf (raw.t.getD 0) (raw.T.getD 0)).Unix,
              nanos := int32 (timestampOf (raw.t.getD 0) (raw.T.getD 0)).Nanosecond,
              px := cvt (raw.p.getD Float64.zero),
              sz := int32 (raw.s.getD 0) }, ?_, hts⟩
    unfold TradeEach
    simp only [hS]
    rw [if_neg]
    · exact Write_c _ g
    · simpa using h
  · obtain ⟨hc, -⟩ := BookEach_spec ops cvt raw g S hS
    exact ⟨_, hc, hts⟩

theorem C8_timestamp_decomposition_witness :
    sampleTradeMessage.S = some "AAPL" ∧
    -2 ^ 63 ≤ 1000000 * sampleTradeMessage.t.getD 0 + sampleTradeMessage.T.getD 0 ∧
    1000000 * sampleTradeMessage.t.getD 0 + sampleTradeMessage.T.getD 0 < 2 ^ 63 ∧
    ∃ tr, (TradeEach sampleCvt sampleTradeMessage (World.init sampleOps)).c =
        (World.init sampleOps).c ++ [⟨"AAPL" ++ "/1Min/TRADE", .ofTrade tr⟩] ∧
      tr.epoch * 1000000000 + tr.nanos =
        1000000 * sampleTradeMessage.t.getD 0 + sampleTradeMessage.T.getD 0 ∧
      0 ≤ tr.nanos ∧ tr.nanos ≤ 999999999 :=
  ⟨rfl, by decide, by decide,
    (C8_timestamp_decomposition sampleOps sampleCvt sampleTradeMessage (World.init sampleOps)
      "AAPL" rfl (by decide) (by decide)).1 (by decide)⟩

/-- C9 (the code departs from the claim): the guard tests the 64-bit size,
the event stores `int32(size)`.  For the size `2^32` the guard passes and the
trade is submitted with `sz = 0`. -/
theorem C9_size_wraps_to_zero {B : Type} (cvt : Float64 → Float32) (g : World B) :
    (TradeEach cvt wideSizeMessage g).c = g.c ++
      [⟨"AAPL/1Min/TRADE",
        .ofTrade ⟨1700000000, 500000, cvt ⟨false, 1030, 782852278976512⟩, 0⟩⟩] := by
  unfold TradeEach
  simp only [wideSizeMessage]
  rw [if_neg (by decide)]
  rw [Write_c]
  rfl

/-- C10: quote synthesis in `BookEach`.  For a depth update with symbol `S`,
the book registered for `S` (created if new) takes every entry of `b` through
`Bid` in list order, then every entry of `a` through `Ask` in list order,
then exactly one `BBO` call; no other book and no other registry entry
changes; and exactly one packet is submitted, with key `S + "/1Min/QUOTE"`,
whose quote carries the price and size of the best bid and best ask that
this `BBO` call returned. -/
theorem C10_quote_synthesis {B : Type} (ops : OrderBookOps B) (cvt : Float64 → Float32)
    (raw : RawMessage) (g : World B) (S : String) (hS : raw.S = some S) :
    mapGet (BookEach ops cvt raw g).orderBooks S = some (getOrderBook ops S g).1 ∧
    (BookEach ops cvt raw g).books (getOrderBook ops S g).1 =
      (ops.BBO (applyDepth ops cvt raw
        ((getOrderBook ops S g).2.books (getOrderBook ops S g).1))).2 ∧
    (∀ a, a ≠ (getOrderBook ops S g).1 →
      (BookEach ops cvt raw g).books a = (getOrderBook ops S g).2.books a) ∧
    ∃ q, (BookEach ops cvt raw g).c = g.c ++ [⟨S ++ "/1Min/QUOTE", .ofQuote q⟩] ∧
      (q.bidPx, q.bidSz, q.askPx, q.askSz) =
        ((ops.BBO (applyDepth ops cvt raw
            ((getOrderBook ops S g).2.books (getOrderBook ops S g).1))).1.1.Price,
         (ops.BBO (applyDepth ops cvt raw
            ((getOrderBook ops S g).2.books (getOrderBook ops S g).1))).1.1.Size,
         (ops.BBO (applyDepth ops cvt raw
            ((getOrderBook ops S g).2.books (getOrderBook ops S g).1))).1.2.Price,
         (ops.BBO (applyDepth ops cvt raw
            ((getOrderBook ops S g).2.books (getOrderBook ops S g).1))).1.2.Size) := by
  obtain ⟨hc, hb, ho, hr⟩ := BookEach_spec ops cvt raw g S hS
  refine ⟨?_, hb, ho, _, hc, rfl⟩
  rw [hr]
  exact getOrderBook_registered ops S g

theorem C10_quote_synthesis_witness :
    sampleBookMessage.S = some "MSFT" ∧
    ∃ q, (BookEach sampleOps sampleCvt sampleBookMessage (World.init sampleOps)).c =
        (World.init sampleOps).c ++ [⟨"MSFT" ++ "/1Min/QUOTE", .ofQuote q⟩] ∧
      (q.bidPx, q.bidSz, q.askPx, q.askSz) =
        ((⟨1133903872⟩ : Float32), (5 : Int), (⟨1133920256⟩ : Float32), (7 : Int)) :=
  ⟨rfl, (C10_quote_synthesis sampleOps sampleCvt sampleBookMessage (World.init sampleOps) "MSFT"
    rfl).2.2.2⟩

/-- C11: a decode fault drops the whole message.  For a raw message without
a readable symbol field, `TradeEach` and `BookEach` leave the package state
as it is: no packet is submitted, no registry entry is created and no order
book is updated. -/
theorem C11_decode_fault_drops {B : Type} (ops : OrderBookOps B) (cvt : Float64 → Float32)
    (raw : RawMessage) (g : World B) (hS : raw.S = none) :
    TradeEach cvt raw g = g ∧ BookEach ops cvt raw g = g ∧
    (TradeEach cvt raw g).c = g.c ∧ (BookEach ops cvt raw g).c = g.c ∧
    (BookEach ops cvt raw g).orderBooks = g.orderBooks ∧
    (BookEach ops cvt raw g).nextBook = g.nextBook ∧
    ∀ a, (BookEach ops cvt raw g).books a = g.books a := by
  have h1 : TradeEach cvt raw g = g := by
    unfold TradeEach
    simp only [hS]
  have h2 : BookEach ops cvt raw g = g := by
    unfold BookEach
    simp only [hS]
  rw [h1, h2]
  exact ⟨rfl, rfl, rfl, rfl, rfl, rfl, fun _ => rfl⟩

theorem C11_decode_fault_drops_witness :
    sampleBadMessage.S = none ∧
    (TradeEach sampleCvt sampleBadMessage (World.init sampleOps)).c = (World.init sampleOps).c ∧
    (BookEach sampleOps sampleCvt sampleBadMessage (World.init sampleOps)).c =
      (World.init sampleOps).c ∧
    (BookEach sampleOps sampleCvt sampleBadMessage (World.init sampleOps)).orderBooks =
      (World.init sampleOps).orderBooks :=
  ⟨rfl,
    (C11_decode_fault_drops sampleOps sampleCvt sampleBadMessage (World.init sampleOps)
      rfl).2.2.1,
    (C11_decode_fault_drops sampleOps sampleCvt sampleBadMessage (World.init sampleOps)
      rfl).2.2.2.1,
    (C11_decode_fault_drops sampleOps sampleCvt sampleBadMessage (World.init sampleOps)
      rfl).2.2.2.2.1⟩

/-- C12, as stated, fails: in the sample state the key AAPL/1Min/TRADE holds a
trade bucket, and a quote packet for that key is not handled as a no-op; the
type assertion `bucket.([]*quote)` of line 179 panics, so the step yields no
state at all. -/
theorem C12_mismatch_not_a_noop :
    mapGet sampleState.dataBuckets "AAPL/1Min/TRADE" = some (.trades [sampleTrade2]) ∧
    ¬ ∃ w', sampleState.recv ⟨"AAPL/1Min/TRADE", .ofQuote sampleQuote1⟩ = some w' ∧
      w'.dataBuckets = sampleState.dataBuckets := by
  refine ⟨rfl, ?_⟩
  rintro ⟨w', h, -⟩
  have h2 : sampleState.recv ⟨"AAPL/1Min/TRADE", .ofQuote sampleQuote1⟩ = none := rfl
  rw [h2] at h
  exact Option.noConfusion h

/-- C12, amended: a packet `(K, e)` for a key that holds a bucket of the other
event kind makes the packet branch panic at the type assertion on the bucket:
the step does not complete, so it changes no buffer, and the consumer loop
stops there, whatever packets and ticks would follow. -/
theorem C12_mismatch_panics (w : writer) (K : TimeBucketKey) (e : Data) (bucket : Bucket)
    (hg : mapGet w.dataBuckets K = some bucket) (hk : bucket.isQuote ≠ e.isQuote) :
    w.recv ⟨K, e⟩ = none ∧
    ∀ (extra : Nat → Nat → Nat) (rest : List Step),
      writer.write extra w (.packet ⟨K, e⟩ :: rest) = none := by
  have h1 : w.recv ⟨K, e⟩ = none := by
    unfold writer.recv
    simp only [hg]
    cases e with
    | ofQuote q =>
      cases bucket with
      | quotes b => simp [Bucket.isQuote, Data.isQuote] at hk
      | trades b => rfl
    | ofTrade t =>
      cases bucket with
      | trades b => simp [Bucket.isQuote, Data.isQuote] at hk
      | quotes b => rfl
  refine ⟨h1, ?_⟩
  intro extra rest
  simp only [writer.write, writer.step, h1]

theorem C12_mismatch_panics_witness :
    mapGet sampleState.dataBuckets "AAPL/1Min/TRADE" = some (.trades [sampleTrade2]) ∧
    (Bucket.trades [sampleTrade2]).isQuote ≠ (Data.ofQuote sampleQuote1).isQuote ∧
    sampleState.recv ⟨"AAPL/1Min/TRADE", .ofQuote sampleQuote1⟩ = none :=
  ⟨rfl, by decide,
    (C12_mismatch_panics sampleState "AAPL/1Min/TRADE" (.ofQuote sampleQuote1)
      (.trades [sampleTrade2]) rfl (by decide)).1⟩

/-- C13: the order-book registry is get-or-create without eviction.  In every
state `g` the package reaches from its start, and for any sequence of
`getOrderBook` calls made from `g`: two calls with the same symbol return the
same book, and two calls that return the same book have the same symbol; a
call for a registered symbol returns its book and leaves the package state as
it is; a call for a new symbol returns a book that no symbol held before, a
new order book, registers it under exactly that key, and leaves every other
entry and every registered book as it is; and no sequence of calls removes or
replaces an entry or changes a registered book. -/
theorem C13_registry_get_or_create {B : Type} (ops : OrderBookOps B) (cvt : Float64 → Float32)
    (history : List Call) (g : World B)
    (hg : g = World.calls ops cvt (World.init ops) history) :
    (∀ (symbols : List String) (i j : Nat) (s : String),
      symbols[i]? = some s → symbols[j]? = some s →
      ∃ a, (getOrderBookAll ops symbols g).1[i]? = some a ∧
        (getOrderBookAll ops symbols g).1[j]? = some a) ∧
    (∀ (symbols : List String) (i j : Nat) (s s' : String) (a : Nat),
      symbols[i]? = some s → symbols[j]? = some s' →
      (getOrderBookAll ops symbols g).1[i]? = some a →
      (getOrderBookAll ops symbols g).1[j]? = some a → s = s') ∧
    (∀ (s : String) (a : Nat), mapGet g.orderBooks s = some a →
      getOrderBook ops s g = (a, g)) ∧
    (∀ s : String, mapGet g.orderBooks s = none →
      mapGet (getOrderBook ops s g).2.orderBooks s = some (getOrderBook ops s g).1 ∧
      (∀ s' a', mapGet g.orderBooks s' = some a' → a' ≠ (getOrderBook ops s g).1) ∧
      (getOrderBook ops s g).2.books (getOrderBook ops s g).1 = ops.NewOrderBook ∧
      (getOrderBook ops s g).2.orderBooks.map Prod.fst = g.orderBooks.map Prod.fst ++ [s] ∧
      (∀ s', s' ≠ s →
        mapGet (getOrderBook ops s g).2.orderBooks s' = mapGet g.orderBooks s') ∧
      (∀ s' a', mapGet g.orderBooks s' = some a' →
        (getOrderBook ops s g).2.books a' = g.books a')) ∧
    (∀ (symbols : List String) (s : String) (a : Nat), mapGet g.orderBooks s = some a →
      mapGet (getOrderBookAll ops symbols g).2.orderBooks s = some a ∧
      (getOrderBookAll ops symbols g).2.books a = g.books a) := by
  have hok : g.RegistryOK := by
    rw [hg]
    exact calls_registryOK ops cvt history
  refine ⟨?_, ?_, ?_, ?_, ?_⟩
  · intro symbols i j s hi hj
    obtain ⟨a, h1, h2⟩ := getOrderBookAll_result ops symbols g i s hi
    obtain ⟨a', h1', h2'⟩ := getOrderBookAll_result ops symbols g j s hj
    rw [h2] at h2'
    simp only [Option.some.injEq] at h2'
    subst h2'
    exact ⟨a, h1, h1'⟩
  · intro symbols i j s s' a hi hj hri hrj
    obtain ⟨a1, h1, h2⟩ := getOrderBookAll_result ops symbols g i s hi
    obtain ⟨a2, h1', h2'⟩ := getOrderBookAll_result ops symbols g j s' hj
    rw [hri] at h1
    rw [hrj] at h1'
    simp only [Option.some.injEq] at h1 h1'
    subst h1
    subst h1'
    exact (getOrderBookAll_registryOK ops symbols g hok).2 s s' a h2 h2'
  · intro s a h
    exact getOrderBook_hit ops s g a h
  · intro s h
    obtain ⟨m1, m2, m3, m4⟩ := getOrderBook_miss ops s g h
    refine ⟨getOrderBook_registered ops s g, ?_, ?_, ?_, ?_, ?_⟩
    · intro s' a' hs'
      have := hok.1 s' a' hs'
      rw [m1]
      omega
    · rw [m1]; exact m3
    · rw [m2]; exact mapSet_keys_new _ _ _ h
    · intro s' hs'
      rw [m2]; exact mapGet_mapSet_other _ _ _ _ hs'
    · intro s' a' hs'
      have := hok.1 s' a' hs'
      exact m4 a' (by omega)
  · intro symbols s a h
    exact ⟨getOrderBookAll_keeps ops symbols g s a h,
      (getOrderBookAll_books_below ops symbols g).2 a (hok.1 s a h)⟩

theorem C13_registry_get_or_create_witness :
    World.calls sampleOps sampleCvt (World.init sampleOps)
        [.BookEach sampleBookMessage, .TradeEach sampleTradeMessage] =
      World.calls sampleOps sampleCvt (World.init sampleOps)
        [.BookEach sampleBookMessage, .TradeEach sampleTradeMessage] ∧
    (["AAPL", "MSFT", "AAPL"] : List String)[0]? = some "AAPL" ∧
    (["AAPL", "MSFT", "AAPL"] : List String)[2]? = some "AAPL" ∧
    (getOrderBookAll sampleOps ["AAPL", "MSFT", "AAPL"]
      (World.calls sampleOps sampleCvt (World.init sampleOps)
        [.BookEach sampleBookMessage, .TradeEach sampleTradeMessage])).1 = [1, 0, 1] ∧
    ∃ a, (getOrderBookAll sampleOps ["AAPL", "MSFT", "AAPL"]
        (World.calls sampleOps sampleCvt (World.init sampleOps)
          [.BookEach sampleBookMessage, .TradeEach sampleTradeMessage])).1[0]? = some a ∧
      (getOrderBookAll sampleOps ["AAPL", "MSFT", "AAPL"]
        (World.calls sampleOps sampleCvt (World.init sampleOps)
          [.BookEach sampleBookMessage, .TradeEach sampleTradeMessage])).1[2]? = some a :=
  ⟨rfl, rfl, rfl, by decide,
    (C13_registry_get_or_create sampleOps sampleCvt
      [.BookEach sampleBookMessage, .TradeEach sampleTradeMessage] _ rfl).1
      ["AAPL", "MSFT", "AAPL"] 0 2 "AAPL" rfl rfl⟩

/-- C14 (the code departs from the claim): every iteration of the loop calls
`time.After(w.interval)` anew, so a packet received restarts the wait.  With
the interval of 100 ms and `n` packets arriving 50 ms apart, the first `n`
wake-ups are all packets and the first flush comes at `50 * n + 100` ms, not
within 100 ms of the start; and after a flush at 100 ms, one packet at 150 ms
moves the next flush to 250 ms. -/
theorem C14_flush_postponed (m : writePacket) (n : Nat) :
    selectLoop interval n 0 (arrivalsEvery 50 m 0 n) =
      (arrivalsEvery 50 m 0 n).map (fun e => (e.1, some e.2)) ∧
    flushTimes (selectLoop interval (n + 1) 0 (arrivalsEvery 50 m 0 n)) = [50 * n + 100] ∧
    flushTimes (selectLoop interval 3 0 [(150, m)]) = [100, 250] := by
  refine ⟨selectLoop_arrivalsEvery m n 0, ?_, ?_⟩
  · rw [selectLoop_arrivalsEvery_then m n 0]
    simp
  · simp [selectLoop, flushTimes, interval]

/-- C15: one-time start and lossless submit.  For a non-empty sequence of
`Write` calls made before `w.write` was ever started, `w.write` is started
exactly once, by the first call, and the channel receives every packet, in
call order, after whatever it held. -/
theorem C15_start_once_lossless {B : Type} (p : writePacket) (rest : List writePacket)
    (g : World B) (h : g.onceDone = false) :
    (Write p g).started = g.started + 1 ∧
    (WriteAll (p :: rest) g).started = g.started + 1 ∧
    (WriteAll (p :: rest) g).c = g.c ++ (p :: rest) ∧
    ∀ k, (WriteAll ((p :: rest).take k) g).c = g.c ++ (p :: rest).take k := by
  obtain ⟨h1, h2⟩ := Write_started p g
  rw [h] at h2
  have h3 := WriteAll_started_done rest (Write p g) h1
  refine ⟨by simpa using h2, ?_, WriteAll_c _ g, fun k => WriteAll_c _ g⟩
  have : WriteAll (p :: rest) g = WriteAll rest (Write p g) := rfl
  rw [this, h3.1]
  simpa using h2

theorem C15_start_once_lossless_witness :
    (World.init sampleOps).onceDone = false ∧
    (WriteAll [⟨"AAPL/1Min/TRADE", .ofTrade sampleTrade1⟩,
        ⟨"MSFT/1Min/QUOTE", .ofQuote sampleQuote1⟩] (World.init sampleOps)).started =
      (World.init sampleOps).started + 1 ∧
    (WriteAll [⟨"AAPL/1Min/TRADE", .ofTrade sampleTrade1⟩,
        ⟨"MSFT/1Min/QUOTE", .ofQuote sampleQuote1⟩] (World.init sampleOps)).c =
      (World.init sampleOps).c ++ [⟨"AAPL/1Min/TRADE", .ofTrade sampleTrade1⟩,
        ⟨"MSFT/1Min/QUOTE", .ofQuote sampleQuote1⟩] :=
  ⟨rfl,
    (C15_start_once_lossless ⟨"AAPL/1Min/TRADE", .ofTrade sampleTrade1⟩
      [⟨"MSFT/1Min/QUOTE", .ofQuote sampleQuote1⟩] (World.init sampleOps) rfl).2.1,
    (C15_start_once_lossless ⟨"AAPL/1Min/TRADE", .ofTrade sampleTrade1⟩
      [⟨"MSFT/1Min/QUOTE", .ofQuote sampleQuote1⟩] (World.init sampleOps) rfl).2.2.1⟩

/-- C16: a flush emits only non-empty buffers and is idempotent.  In every
state the loop reaches from the start, a tick whose range loop covers the
keys records columns for a key exactly when the buffer of the key is not
empty before the tick; and a second tick right after it records no column
at all and leaves `dataBuckets` as the first tick left it. -/
theorem C16_flush_only_nonempty (extra : Nat → Nat → Nat) (steps : List Step) (w : writer)
    (order : List TimeBucketKey)
    (hreach : writer.write extra writer.init steps = some w)
    (hcov : ∀ k ∈ w.dataBuckets.map Prod.fst, k ∈ order) :
    (∀ K, (w.tick extra order).columnsOf K ≠ [] ↔ w.buffer K ≠ []) ∧
    ∀ order2, ((w.tick extra order).tick extra order2).csm = [] ∧
      ((w.tick extra order).tick extra order2).dataBuckets = (w.tick extra order).dataBuckets := by
  obtain ⟨h0, -⟩ := write_inv extra steps writer.init w hreach init_inv
  constructor
  · intro K
    rw [columnsOf_ne_nil]
    unfold writer.tick
    rw [foldVisit_csm extra order { w with csm := [] } K h0]
    constructor
    · rintro (h | ⟨-, h⟩)
      · simp at h
      · exact h
    · intro h
      right
      refine ⟨?_, h⟩
      cases hg : mapGet w.dataBuckets K with
      | none => simp [writer.buffer, hg] at h
      | some bucket => exact hcov K (mapGet_mem_keys _ _ _ hg)
  · intro order2
    have h1 := tick_scratchEmpty extra w order h0
    have hidle : (w.tick extra order).tick extra order2 = { w.tick extra order with csm := [] } := by
      unfold writer.tick
      apply foldVisit_idle
      · intro K bucket hg
        exact tick_emptied extra w order hcov K bucket hg
      · exact h1.1
    rw [hidle]
    exact ⟨rfl, rfl⟩

theorem C16_flush_only_nonempty_witness :
    writer.write (fun _ _ => 0) writer.init sampleSchedule = some sampleState ∧
    (∀ k ∈ sampleState.dataBuckets.map Prod.fst, k ∈ ["MSFT/1Min/QUOTE", "AAPL/1Min/TRADE"]) ∧
    ((sampleState.tick (fun _ _ => 0) ["MSFT/1Min/QUOTE", "AAPL/1Min/TRADE"]).columnsOf
        "AAPL/1Min/TRADE" ≠ [] ↔ sampleState.buffer "AAPL/1Min/TRADE" ≠ []) ∧
    ((sampleState.tick (fun _ _ => 0) ["MSFT/1Min/QUOTE", "AAPL/1Min/TRADE"]).tick
        (fun _ _ => 0) ["AAPL/1Min/TRADE", "MSFT/1Min/QUOTE"]).csm = [] :=
  ⟨rfl, by decide,
    (C16_flush_only_nonempty (fun _ _ => 0) sampleSchedule sampleState
      ["MSFT/1Min/QUOTE", "AAPL/1Min/TRADE"] rfl (by decide)).1 "AAPL/1Min/TRADE",
    ((C16_flush_only_nonempty (fun _ _ => 0) sampleSchedule sampleState
      ["MSFT/1Min/QUOTE", "AAPL/1Min/TRADE"] rfl (by decide)).2
      ["AAPL/1Min/TRADE", "MSFT/1Min/QUOTE"]).1⟩

/-- C17: the scratch-array invariant.  In every state the loop reaches from
the start, all eight scratch slices have length zero, and so they have at the
start of every iteration of the range loop of a tick (after any keys `pre`
already visited).  Hence, for the bucket `b` of the iteration, the guard
`len(epoch) > 0` holds exactly when `b` is not empty, and at the guard every
scratch slice appended to has the length of `b`. -/
theorem C17_scratch_invariant (extra : Nat → Nat → Nat) (steps : List Step) (w : writer)
    (pre : List TimeBucketKey) (hreach : writer.write extra writer.init steps = some w) :
    w.ScratchEmpty ∧
    (pre.foldl (writer.visit extra) { w with csm := [] }).ScratchEmpty ∧
    (∀ b : List quote,
      (0 < (b.foldl (writer.appendQuote extra)
          (pre.foldl (writer.visit extra) { w with csm := [] })).epoch.len ↔ b ≠ []) ∧
      (b.foldl (writer.appendQuote extra)
          (pre.foldl (writer.visit extra) { w with csm := [] })).epoch.len = b.length ∧
      (b.foldl (writer.appendQuote extra)
          (pre.foldl (writer.visit extra) { w with csm := [] })).nanos.len = b.length ∧
      (b.foldl (writer.appendQuote extra)
          (pre.foldl (writer.visit extra) { w with csm := [] })).bidPx.len = b.length ∧
      (b.foldl (writer.appendQuote extra)
          (pre.foldl (writer.visit extra) { w with csm := [] })).askPx.len = b.length ∧
      (b.foldl (writer.appendQuote extra)
          (pre.foldl (writer.visit extra) { w with csm := [] })).bidSz.len = b.length ∧
      (b.foldl (writer.appendQuote extra)
          (pre.foldl (writer.visit extra) { w with csm := [] })).askSz.len = b.length) ∧
    (∀ b : List trade,
      (0 < (b.foldl (writer.appendTrade extra)
          (pre.foldl (writer.visit extra) { w with csm := [] })).epoch.len ↔ b ≠ []) ∧
      (b.foldl (writer.appendTrade extra)
          (pre.foldl (writer.visit extra) { w with csm := [] })).epoch.len = b.length ∧
      (b.foldl (writer.appendTrade extra)
          (pre.foldl (writer.visit extra) { w with csm := [] })).nanos.len = b.length ∧
      (b.foldl (writer.appendTrade extra)
          (pre.foldl (writer.visit extra) { w with csm := [] })).px.len = b.length ∧
      (b.foldl (writer.appendTrade extra)
          (pre.foldl (writer.visit extra) { w with csm := [] })).sz.len = b.length) := by
  obtain ⟨h0, hs⟩ := write_inv extra steps writer.init w hreach init_inv
  have h1 : (pre.foldl (writer.visit extra) { w with csm := [] }).ScratchEmpty :=
    (foldVisit_inv extra pre { w with csm := [] } ⟨h0, hs⟩).1
  refine ⟨h0, h1, ?_, ?_⟩
  · intro b
    obtain ⟨-, -, -, -, c6, c7, c8, c9, c10, c11⟩ :=
      foldQuote_frame extra b (pre.foldl (writer.visit extra) { w with csm := [] })
    obtain ⟨e1, e2, e3, e4, -, e6, e7, -⟩ := h1
    rw [c6, c7, c8, c9, c10, c11, e1, e2, e3, e4, e6, e7]
    simp [List.length_pos]
  · intro b
    obtain ⟨-, -, -, -, -, -, c8, c9, c10, c11⟩ :=
      foldTrade_frame extra b (pre.foldl (writer.visit extra) { w with csm := [] })
    obtain ⟨e1, e2, -, -, e5, -, -, e8⟩ := h1
    rw [c8, c9, c10, c11, e1, e2, e5, e8]
    simp [List.length_pos]

theorem C17_scratch_invariant_witness :
    writer.write (fun _ _ => 0) writer.init sampleSchedule = some sampleState ∧
    sampleState.ScratchEmpty ∧
    (["AAPL/1Min/TRADE"].foldl (writer.visit (fun _ _ => 0))
      { sampleState with csm := [] }).ScratchEmpty :=
  ⟨rfl,
    (C17_scratch_invariant (fun _ _ => 0) sampleSchedule sampleState ["AAPL/1Min/TRADE"] rfl).1,
    (C17_scratch_invariant (fun _ _ => 0) sampleSchedule sampleState ["AAPL/1Min/TRADE"]
      rfl).2.1⟩

end Handlers
